import Mathlib

/-!
Verification of the Leaf-cloud job lifecycle engine (src/server.js).

The engine state lives in four module-level mutable tables of server.js:
`taskQueue`, `taskProgressQueue`, `customers`, `taskUpdates`, plus the
cancellation table `cancelMap`.  JS objects used as string-keyed maps are
embedded as association lists with unique keys (`JsMap`); byte Buffers are
lists of naturals; timestamps are milliseconds as naturals.  Each HTTP
handler body is translated to a pure function from the engine state to a
typed response paired with the successor state; the external Oracle calls
(validateWorker, audit writes) do not touch the engine state and are
modelled by a boolean validation outcome passed as an argument.
-/

namespace LeafCloud

/-- Byte blob (a Node Buffer), one natural per byte. -/
abbrev Bytes := List Nat

/-- A JS object used as a string-keyed map, embedded as an association list. -/
abbrev JsMap (α : Type) := List (String × α)

/-- Property lookup `m[k]`; `none` models `undefined`. -/
def mapLookup {α : Type} : JsMap α → String → Option α
  | [], _ => none
  | (k', v) :: rest, k => if k' = k then some v else mapLookup rest k

/-- Property assignment `m[k] = v`. -/
def mapSet {α : Type} : JsMap α → String → α → JsMap α
  | [], k, v => [(k, v)]
  | (k', v') :: rest, k, v =>
      if k' = k then (k', v) :: rest else (k', v') :: mapSet rest k v

/-- Property deletion `delete m[k]`. -/
def mapErase {α : Type} : JsMap α → String → JsMap α
  | [], _ => []
  | (k', v') :: rest, k =>
      if k' = k then mapErase rest k else (k', v') :: mapErase rest k

/-- A pending work unit `{customerId, taskId}` (server.js line 621, 2561). -/
structure WorkUnit where
  customerId : String
  taskId : String
deriving DecidableEq, Repr

/-- The `{submitted, total, percentage, isCompleted, isCancelled, canDownload}`
object built by getTaskProgress (server.js lines 287-294). -/
structure TaskProgress where
  submitted : Nat
  total : Nat
  percentage : Nat
  isCompleted : Bool
  isCancelled : Bool
  canDownload : Bool
deriving DecidableEq, Repr

/-- The untyped `progress` payload attached to an update record: either the
three-field object of a completion message (server.js lines 308-312) or the
full getTaskProgress object passed along by gettask and uploadresult. -/
inductive ProgressVal where
  | simple (submitted total percentage : Nat)
  | full (p : TaskProgress)
deriving DecidableEq, Repr

/-- One record of the per-customer update feed (server.js lines 302-313 and
330-341).  A record built by addProgressUpdate carries no isCompletion field,
which reads back as undefined, i.e. false. -/
structure Update where
  customerId : String
  text : String
  timestamp : String
  status : String
  isCompletion : Bool
  progress : Option ProgressVal
deriving DecidableEq, Repr

/-- The `files` sub-object of a job (server.js lines 597-601). -/
structure JobFiles where
  code : Bytes
  datasetChunks : List (Option Bytes)
  requirement : Option Bytes
deriving DecidableEq, Repr

/-- One entry of the `customers` table (server.js lines 595-614).  The field
`workers` is the assignedWorkers sequence in claim order; `completedAt` and
`completionNotified` start absent (undefined), modelled as `none` / `false`. -/
structure Job where
  cusname : String
  files : JobFiles
  numWorkers : Nat
  workers : List String
  results : JsMap Bytes
  usage : JsMap Bytes
  outputFiles : JsMap (JsMap Bytes)
  pendingWorkers : Nat
  workerHeartbeats : JsMap Nat
  taskId : String
  customerId : String
  isCompleted : Bool
  isCancelled : Bool
  completionNotified : Bool
  createdAt : Nat
  completedAt : Option Nat
deriving DecidableEq, Repr

/-- The module-level mutable tables of server.js (lines 156-159 and 417).
`cancelMap` only ever stores the value true, so it is embedded as the list of
cancelled customerIds. -/
structure EngineState where
  taskQueue : List WorkUnit
  taskProgressQueue : List WorkUnit
  customers : JsMap Job
  taskUpdates : JsMap (List Update)
  cancelMap : List String
deriving DecidableEq, Repr

/-- The engine state before any request is served: every table empty. -/
def initialState : EngineState :=
  { taskQueue := [], taskProgressQueue := [], customers := [],
    taskUpdates := [], cancelMap := [] }

/-- server.js line 160. -/
def HEARTBEAT_TIMEOUT : Nat := 30000

/-- splitDataset (server.js lines 171-182).  A missing or empty buffer yields
`Array(numParts).fill(null)`.  Otherwise `chunkSize = Math.ceil(len/numParts)`
which for a positive numParts equals `(len + numParts - 1) / numParts` on
naturals, and chunk i is `buffer.slice(i*chunkSize, min((i+1)*chunkSize, len))`,
i.e. drop `i*chunkSize` then take `chunkSize`. -/
def splitDataset (buffer : Option Bytes) (numParts : Nat) : List (Option Bytes) :=
  match buffer with
  | none => List.replicate numParts none
  | some l =>
    if l.length = 0 then List.replicate numParts none
    else
      let chunkSize := (l.length + numParts - 1) / numParts
      (List.range numParts).map (fun i => some ((l.drop (i * chunkSize)).take chunkSize))

/-- The byte content a worker receives for a shard: a null shard carries no
bytes. -/
def shardBytes (shard : Option Bytes) : Bytes := shard.getD []

/-- Date.prototype.toISOString: an ISO-8601 datetime string such as
"2025-01-01T00:00:00.000Z".  We render the millisecond count between the
ISO marks T and Z; the only properties of the string the program depends on
are that distinct instants render distinct strings and that, like every ISO
datetime string, it is not a numeric literal, so JS ToNumber maps it to NaN. -/
def toISOString (ms : Nat) : String := "T" ++ toString ms ++ "Z"

/-- Value of a decimal digit string. -/
def digitsToNat (cs : List Char) : Nat :=
  cs.foldl (fun a c => a * 10 + (c.toNat - 48)) 0

/-- JS ToNumber on a string, restricted to the string shapes this program
compares: the empty string converts to 0, an optional sign followed by
decimal digits converts to that integer, and every other string - in
particular every ISO datetime string, which contains the separators T, Z,
":" and "-" - converts to NaN, encoded here as `none`. -/
def jsStringToNumber (s : String) : Option Int :=
  match s.data with
  | [] => some 0
  | '-' :: rest =>
      if rest ≠ [] ∧ rest.all Char.isDigit then some (-(digitsToNat rest : Int)) else none
  | '+' :: rest =>
      if rest ≠ [] ∧ rest.all Char.isDigit then some (digitsToNat rest : Int) else none
  | cs =>
      if cs.all Char.isDigit then some (digitsToNat cs : Int) else none

/-- Math.round((submitted/total)*100) on exact rationals: round half up. -/
def roundPct (submitted total : Nat) : Nat :=
  (200 * submitted + total) / (2 * total)

/-- areAllResultsAvailable (server.js lines 259-275): the assigned worker
list must have exactly numWorkers entries and every listed workerId must
have both a results entry and a usage entry.  Stored entries are Buffers,
which are always truthy, so JS truthiness is presence of the key. -/
def areAllResultsAvailable (s : EngineState) (customerId : String) : Bool :=
  match mapLookup s.customers customerId with
  | none => false
  | some j =>
      j.workers.length == j.numWorkers &&
      j.workers.all (fun w =>
        (mapLookup j.results w).isSome && (mapLookup j.usage w).isSome)

/-- getTaskProgress (server.js lines 278-295). -/
def getTaskProgress (s : EngineState) (customerId : String) : Option TaskProgress :=
  match mapLookup s.customers customerId with
  | none => none
  | some j =>
      let submitted := j.results.length
      let total := j.numWorkers
      let isCompleted := areAllResultsAvailable s customerId
      let isCancelled := decide (customerId ∈ s.cancelMap)
      some { submitted := submitted, total := total,
             percentage := if total > 0 then roundPct submitted total else 0,
             isCompleted := isCompleted, isCancelled := isCancelled,
             canDownload := isCompleted && !isCancelled }

/-- Append one update record to the feed map of one customer, creating the
entry when absent (the body shared by addProgressUpdate and
addCompletionNotification). -/
def appendUpdate (m : JsMap (List Update)) (customerId : String) (u : Update) :
    JsMap (List Update) :=
  mapSet m customerId (((mapLookup m customerId).getD []) ++ [u])

/-- addProgressUpdate (server.js lines 325-342): status "progress", no
isCompletion field. -/
def addProgressUpdate (now : Nat) (customerId msg : String)
    (progress : Option ProgressVal) (s : EngineState) : EngineState :=
  let u : Update :=
    { customerId := customerId, text := msg, timestamp := toISOString now,
      status := "progress", isCompletion := false, progress := progress }
  { s with taskUpdates := appendUpdate s.taskUpdates customerId u }

/-- addCompletionNotification (server.js lines 298-322): looks the job up
again, returns silently when it is gone, and appends the sticky completion
record with status "completed". -/
def addCompletionNotification (now : Nat) (customerId : String) (s : EngineState) :
    EngineState :=
  match mapLookup s.customers customerId with
  | none => s
  | some j =>
      let u : Update :=
        { customerId := customerId,
          text := "TASK COMPLETED! All " ++ toString j.numWorkers ++
            " workers have finished processing. Your results are ready for download.",
          timestamp := toISOString now, status := "completed", isCompletion := true,
          progress := some (.simple j.numWorkers j.numWorkers 100) }
      { s with taskUpdates := appendUpdate s.taskUpdates customerId u }

/-! ## Engine operations (one per HTTP handler of server.js) -/

/-- The fresh job record of a submission (server.js lines 595-614). -/
def newJob (now : Nat) (customerId taskId cusname : String) (code : Bytes)
    (dataset requirement : Option Bytes) (numWorkers : Nat) : Job :=
  { cusname := cusname,
    files :=
      { code := code,
        datasetChunks :=
          match dataset with
          | some b => splitDataset (some b) numWorkers
          | none => List.replicate numWorkers none,
        requirement := requirement },
    numWorkers := numWorkers, workers := [], results := [], usage := [],
    outputFiles := [], pendingWorkers := numWorkers, workerHeartbeats := [],
    taskId := taskId, customerId := customerId, isCompleted := false,
    isCancelled := false, completionNotified := false, createdAt := now,
    completedAt := none }

/-- The engine part of POST /sendingpackage (server.js lines 588-644): create
the job record, seed its update feed, and enqueue numWorkers work units.  The
request parser maps `respn` through `parseInt(..) || 1`, so a missing or zero
count becomes 1.  Database writes and response framing carry no engine state. -/
def createJob (now : Nat) (customerId taskId cusname : String) (code : Bytes)
    (dataset requirement : Option Bytes) (respn : Nat) (s : EngineState) : EngineState :=
  let numWorkers := if respn = 0 then 1 else respn
  let s1 : EngineState :=
    { s with customers := mapSet s.customers customerId
               (newJob now customerId taskId cusname code dataset requirement numWorkers),
             taskUpdates := mapSet s.taskUpdates customerId [],
             taskQueue := s.taskQueue ++ List.replicate numWorkers ⟨customerId, taskId⟩ }
  addProgressUpdate now customerId
    ("Task queued successfully. Waiting for " ++ toString numWorkers ++
      " worker(s) to process your job...") none s1

/-- Typed outcome of POST /gettask, one constructor per distinct response. -/
inductive GetTaskResult where
  /-- 400, workerId missing. -/
  | missingWorkerId
  /-- 403, validateWorker failed. -/
  | invalidWorker
  /-- 200 with taskAvailable false: the queue is empty. -/
  | noWork
  /-- 404 Customer task not found: the popped unit has no job. -/
  | unknownJob
  /-- 400 Task has been cancelled. -/
  | cancelled
  /-- 200 with the assignment payload. -/
  | assigned (taskId customerId : String) (workerIndex totalWorkers : Nat)
      (dataset : Option Bytes)
deriving DecidableEq, Repr

/-- The job update of a successful claim (server.js lines 1239-1240): the
worker is appended to the workers sequence and its heartbeat entry is set. -/
def assignJob (now : Nat) (w : String) (j : Job) : Job :=
  { j with workers := j.workers ++ [w],
           workerHeartbeats := mapSet j.workerHeartbeats w now }

/-- POST /gettask (server.js lines 1200-1276).  The handler shifts the head
unit and pushes it onto taskProgressQueue; when the job is gone it unshifts
the unit back and removes the just-pushed reference from taskProgressQueue,
which restores both queues exactly.  When the job is cancelled the handler
returns with the unit consumed but still in taskProgressQueue.  Otherwise the
worker is appended to workers unconditionally - there is no staleness guard
comparing workers.length with numWorkers - its heartbeat is recorded, and the
progress update is emitted with the progress computed after the assignment. -/
def gettask (now : Nat) (validWorker : Bool) (workerId : String) (s : EngineState) :
    GetTaskResult × EngineState :=
  if workerId = "" then (.missingWorkerId, s)
  else if !validWorker then (.invalidWorker, s)
  else
    match s.taskQueue with
    | [] => (.noWork, s)
    | task :: rest =>
      let s1 : EngineState :=
        { s with taskQueue := rest,
                 taskProgressQueue := s.taskProgressQueue ++ [task] }
      match mapLookup s1.customers task.customerId with
      | none =>
          (.unknownJob, { s1 with taskQueue := task :: rest,
                                  taskProgressQueue := s.taskProgressQueue })
      | some job =>
        if task.customerId ∈ s1.cancelMap then (.cancelled, s1)
        else
          let workerIndex := job.workers.length
          let datasetChunk := job.files.datasetChunks.getD workerIndex none
          let s2 : EngineState :=
            { s1 with customers :=
                mapSet s1.customers task.customerId (assignJob now workerId job) }
          let progress := getTaskProgress s2 task.customerId
          let s3 := addProgressUpdate now task.customerId
            ("Worker " ++ workerId ++ " assigned to task.") (progress.map .full) s2
          (.assigned task.taskId task.customerId workerIndex job.numWorkers datasetChunk, s3)

/-- Typed outcome of POST /uploadresult, one constructor per distinct response. -/
inductive UploadResult where
  /-- 400, workerId or customerId missing. -/
  | missingIds
  /-- 403, validateWorker failed. -/
  | invalidWorker
  /-- 400, result or usage file missing from the multipart body. -/
  | missingFiles
  /-- 400 Customer task not found. -/
  | unknownJob
  /-- 403 Worker not authorized for this task. -/
  | unauthorized
  /-- 400 Task has been cancelled. -/
  | cancelled
  /-- 400 Result already submitted by this worker. -/
  | duplicate
  /-- 200 success payload. -/
  | ok (pendingWorkers submitted total : Nat)
deriving DecidableEq, Repr

/-- The job update performed by a successful submission (server.js lines
1346-1372): results and usage gain the worker's blobs, outputFiles gains an
entry only when at least one output_ field arrived, pendingWorkers drops by
one floored at 0 (Math.max, which on naturals is truncated subtraction), and
the worker's heartbeat entry is deleted. -/
def submitStoreJob (w : String) (r u : Bytes) (outs : JsMap Bytes) (j : Job) : Job :=
  { j with results := mapSet j.results w r,
           usage := mapSet j.usage w u,
           outputFiles :=
             if outs.length > 0 then mapSet j.outputFiles w outs else j.outputFiles,
           pendingWorkers := j.pendingWorkers - 1,
           workerHeartbeats := mapErase j.workerHeartbeats w }

/-- Marking a job completed (server.js lines 1401-1402 and 979-980). -/
def completeJob (now : Nat) (j : Job) : Job :=
  { j with isCompleted := true, completedAt := some now }

/-- Recording that the completion notification went out (server.js lines
1406 and 985). -/
def notifyJob (j : Job) : Job := { j with completionNotified := true }

/-- POST /uploadresult (server.js lines 1290-1433).  Guards in source order:
ids present, worker validated, files present, job exists, worker assigned,
job not cancelled, no prior result from this worker.  Then the submission is
stored (submitStoreJob), the job is dropped from taskProgressQueue once
pendingWorkers reaches 0, a progress update is appended, and if
areAllResultsAvailable now holds and the completion flag is still clear the
job is marked completed, the completion notification is appended and
completionNotified is set. -/
def uploadresult (now : Nat) (validWorker : Bool) (workerId customerId : String)
    (result usg : Bytes) (outputs : JsMap Bytes) (hasResultFile hasUsageFile : Bool)
    (s : EngineState) : UploadResult × EngineState :=
  if workerId = "" ∨ customerId = "" then (.missingIds, s)
  else if !validWorker then (.invalidWorker, s)
  else if !hasResultFile || !hasUsageFile then (.missingFiles, s)
  else
    match mapLookup s.customers customerId with
    | none => (.unknownJob, s)
    | some job =>
      if workerId ∉ job.workers then (.unauthorized, s)
      else if customerId ∈ s.cancelMap then (.cancelled, s)
      else if (mapLookup job.results workerId).isSome then (.duplicate, s)
      else
        let job3 := submitStoreJob workerId result usg outputs job
        let s1 : EngineState := { s with customers := mapSet s.customers customerId job3 }
        let s2 : EngineState :=
          if job3.pendingWorkers = 0 then
            { s1 with taskProgressQueue :=
                s1.taskProgressQueue.filter (fun t => t.customerId ≠ customerId) }
          else s1
        let s3 := addProgressUpdate now customerId
          ("Worker " ++ workerId ++ " completed processing.")
          ((getTaskProgress s2 customerId).map .full) s2
        if areAllResultsAvailable s3 customerId && !job3.isCompleted then
          let s4 : EngineState :=
            { s3 with customers := mapSet s3.customers customerId (completeJob now job3) }
          let s5 := addCompletionNotification now customerId s4
          let s6 : EngineState :=
            { s5 with customers :=
                mapSet s5.customers customerId (notifyJob (completeJob now job3)) }
          (.ok job3.pendingWorkers job3.results.length job3.numWorkers, s6)
        else
          (.ok job3.pendingWorkers job3.results.length job3.numWorkers, s3)

/-- Typed outcome of POST /heartbeat, one constructor per distinct response. -/
inductive HeartbeatResult where
  /-- 400, workerId missing. -/
  | missingWorkerId
  /-- 403, validateWorker failed. -/
  | invalidWorker
  /-- 200 with ok true and status "idle". -/
  | idle
  /-- 200 with ok false: no such job or worker not assigned. -/
  | notAssigned
  /-- 200 with ok false: job cancelled. -/
  | cancelled
  /-- 200 with ok true and status "active". -/
  | active
deriving DecidableEq, Repr

/-- The heartbeat refresh of one job (server.js line 1735). -/
def beatJob (now : Nat) (w : String) (j : Job) : Job :=
  { j with workerHeartbeats := mapSet j.workerHeartbeats w now }

/-- POST /heartbeat (server.js lines 1709-1737).  A missing or "idle"
customerId (the JS test is `customerId === "idle" || !customerId`, so the
empty string also counts as absent) answers idle without touching any state.
Otherwise the job must exist and list the worker in workers - nothing checks
whether the worker already submitted - and a non-cancelled job gets its
heartbeat entry set to now, re-creating the entry for a worker that had
already submitted its result. -/
def heartbeat (now : Nat) (validWorker : Bool) (workerId : String)
    (customerId : Option String) (s : EngineState) : HeartbeatResult × EngineState :=
  if workerId = "" then (.missingWorkerId, s)
  else if !validWorker then (.invalidWorker, s)
  else
    match customerId with
    | none => (.idle, s)
    | some cid =>
      if cid = "idle" ∨ cid = "" then (.idle, s)
      else
        match mapLookup s.customers cid with
        | none => (.notAssigned, s)
        | some job =>
          if workerId ∉ job.workers then (.notAssigned, s)
          else if cid ∈ s.cancelMap then (.cancelled, s)
          else
            (.active,
             { s with customers := mapSet s.customers cid (beatJob now workerId job) })

/-- Typed outcome of POST /cancel. -/
inductive CancelResult where
  /-- 400, customerId missing. -/
  | missingCustomerId
  /-- 200 success. -/
  | ok
deriving DecidableEq, Repr

/-- The job update of a cancellation (server.js lines 546-555): zero
pendingWorkers, raise isCancelled, and clear every heartbeat entry. -/
def cancelJobRec (j : Job) : Job :=
  { j with pendingWorkers := 0, isCancelled := true, workerHeartbeats := [] }

/-- POST /cancel (server.js lines 534-560): record the customerId in
cancelMap, drop every queued unit of that customer, and when the job exists
zero pendingWorkers, raise isCancelled - nothing checks isCompleted first -
append the cancellation update and clear every heartbeat entry. -/
def cancel (now : Nat) (customerId : String) (s : EngineState) :
    CancelResult × EngineState :=
  if customerId = "" then (.missingCustomerId, s)
  else
    let newCancelMap :=
      if customerId ∈ s.cancelMap then s.cancelMap else customerId :: s.cancelMap
    let s1 : EngineState :=
      { s with cancelMap := newCancelMap,
               taskQueue := s.taskQueue.filter (fun t => t.customerId ≠ customerId) }
    match mapLookup s1.customers customerId with
    | none => (.ok, s1)
    | some job =>
      let s2 : EngineState :=
        { s1 with customers := mapSet s1.customers customerId (cancelJobRec job) }
      let s3 := addProgressUpdate now customerId
        "TASK CANCELLED by user. No results will be available." none s2
      (.ok, s3)

/-- Typed outcome of GET /getresults/:customerId. -/
inductive DownloadResult where
  /-- 404 Customer task not found. -/
  | notFound
  /-- 400 Task was cancelled. -/
  | cancelled
  /-- 400 Results not ready yet. -/
  | notReady
  /-- 200, the ZIP stream. -/
  | ok
deriving DecidableEq, Repr

/-- The engine part of GET /getresults/:customerId (server.js lines
955-1085): refuse when the job is missing, cancelled, or not all results are
in; otherwise mark the job completed when the flag is still clear, emitting
the completion notification once, and stream the archive (the archive
contents carry no engine state). -/
def getresults (now : Nat) (customerId : String) (s : EngineState) :
    DownloadResult × EngineState :=
  match mapLookup s.customers customerId with
  | none => (.notFound, s)
  | some job =>
    if customerId ∈ s.cancelMap then (.cancelled, s)
    else if !areAllResultsAvailable s customerId then (.notReady, s)
    else if job.isCompleted then (.ok, s)
    else
      let s1 : EngineState :=
        { s with customers := mapSet s.customers customerId (completeJob now job) }
      if job.completionNotified then (.ok, s1)
      else
        let s2 := addCompletionNotification now customerId s1
        let jn := notifyJob (completeJob now job)
        (.ok, { s2 with customers := mapSet s2.customers customerId jn })

/-- The retention predicate of the /getUpdate drain (server.js lines
1127-1129): keep an update when its status is "completed" or when
`update.timestamp > Date.now() - 60000`.  The stored timestamp is the ISO
string produced by toISOString, so the relational comparison converts it
with ToNumber; an ISO datetime string converts to NaN and every comparison
against NaN is false. -/
def keepUpdate (now : Nat) (u : Update) : Bool :=
  u.status == "completed" ||
    (match jsStringToNumber u.timestamp with
     | some m => decide (m > (now : Int) - 60000)
     | none => false)

/-- Typed outcome of POST /getUpdate. -/
inductive GetUpdateResult where
  /-- 400, customerId missing. -/
  | missingCustomerId
  /-- 404 Customer task not found. -/
  | notFound
  /-- 200 payload: the drained updates, hasUpdates, and isCompleted. -/
  | ok (updates : List Update) (hasUpdates isCompleted : Bool)
deriving DecidableEq, Repr

/-- POST /getUpdate (server.js lines 1114-1157): read the current buffer,
overwrite the stored buffer with the entries passing keepUpdate, and - when
the stored completion flag is set but no completed-status entry was in the
buffer - append the completion notification, re-filter, and return the
re-fetched buffer; otherwise return the original buffer together with the
dynamically computed completion bit of getTaskProgress. -/
def getUpdate (now : Nat) (customerId : String) (s : EngineState) :
    GetUpdateResult × EngineState :=
  if customerId = "" then (.missingCustomerId, s)
  else
    match mapLookup s.customers customerId with
    | none => (.notFound, s)
    | some job =>
      let updates := (mapLookup s.taskUpdates customerId).getD []
      let s1 : EngineState :=
        { s with taskUpdates :=
            mapSet s.taskUpdates customerId (updates.filter (keepUpdate now)) }
      if job.isCompleted && !(updates.any (fun u => u.status == "completed")) then
        let s2 := addCompletionNotification now customerId s1
        let updated := (mapLookup s2.taskUpdates customerId).getD []
        let s3 : EngineState :=
          { s2 with taskUpdates :=
              mapSet s2.taskUpdates customerId (updated.filter (keepUpdate now)) }
        (.ok updated true true, s3)
      else
        let isCompleted := (getTaskProgress s1 customerId).elim false (·.isCompleted)
        (.ok updates (updates.length > 0) isCompleted, s1)

/-- The per-worker staleness test of the heartbeat monitor (server.js lines
2543-2546): a worker is skipped when its heartbeat entry is falsy (missing,
or the timestamp 0), and released when `now - lastBeat > HEARTBEAT_TIMEOUT`. -/
def staleCheck (now : Nat) (j : Job) (w : String) : Bool :=
  match mapLookup j.workerHeartbeats w with
  | none => false
  | some lastBeat => lastBeat ≠ 0 && decide (now - lastBeat > HEARTBEAT_TIMEOUT)

/-- The release of one timed-out worker (server.js lines 2549-2558): drop
every occurrence of the workerId from workers and delete its entries in
workerHeartbeats, results, usage and outputFiles.  pendingWorkers is not
touched. -/
def releaseWorker (j : Job) (w : String) : Job :=
  { j with workers := j.workers.filter (fun x => x ≠ w),
           workerHeartbeats := mapErase j.workerHeartbeats w,
           results := mapErase j.results w,
           usage := mapErase j.usage w,
           outputFiles := mapErase j.outputFiles w }

/-- The inner worker loop of one monitor tick for one job (server.js lines
2541-2576).  The loop iterates over the snapshot `[...customerTask.workers]`
while mutating the job in place; here the job, the task queue and the update
feed map are threaded through the fold.  Each release appends one fresh unit
`{customerId, taskId}` at the queue tail and one timeout update. -/
def sweepWorkersLoop (now : Nat) (cid tid : String) :
    Job × List WorkUnit × JsMap (List Update) → List String →
    Job × List WorkUnit × JsMap (List Update)
  | acc, [] => acc
  | (j, q, m), w :: ws =>
    if staleCheck now j w then
      let u : Update :=
        { customerId := cid, text := "Worker " ++ w ++ " timed out. Reassigning task...",
          timestamp := toISOString now, status := "progress", isCompletion := false,
          progress := none }
      sweepWorkersLoop now cid tid
        (releaseWorker j w, q ++ [⟨cid, tid⟩], appendUpdate m cid u) ws
    else sweepWorkersLoop now cid tid (j, q, m) ws

/-- The body of one monitor tick for one progress-queue entry (server.js
lines 2527-2539 plus the worker loop).  A vanished, completed or cancelled
job only gets its entry pruned from taskProgressQueue; the JS prune removes
the iterated array reference, embedded here as removal of one matching
occurrence.  Otherwise the worker loop runs and its results are written
back. -/
def sweepTask (now : Nat) (s : EngineState) (task : WorkUnit) : EngineState :=
  match mapLookup s.customers task.customerId with
  | none => { s with taskProgressQueue := s.taskProgressQueue.erase task }
  | some j =>
    if j.isCompleted || task.customerId ∈ s.cancelMap then
      { s with taskProgressQueue := s.taskProgressQueue.erase task }
    else
      match sweepWorkersLoop now task.customerId task.taskId
        (j, s.taskQueue, s.taskUpdates) j.workers with
      | (j', q', m') =>
        { s with customers := mapSet s.customers task.customerId j',
                 taskQueue := q',
                 taskUpdates := m' }

/-- One tick of the heartbeat monitor (server.js lines 2524-2578): iterate
over the snapshot of taskProgressQueue, threading the state. -/
def sweep (now : Nat) (s : EngineState) : EngineState :=
  s.taskProgressQueue.foldl (sweepTask now) s

/-! ## The public operations and reachable engine states -/

/-- One public engine operation: a claim, a result submission, a heartbeat,
a cancellation, a result download, an update drain, or a monitor tick. -/
inductive PublicOp where
  | claim (now : Nat) (validWorker : Bool) (workerId : String)
  | submit (now : Nat) (validWorker : Bool) (workerId customerId : String)
      (result usg : Bytes) (outputs : JsMap Bytes) (hasResultFile hasUsageFile : Bool)
  | beat (now : Nat) (validWorker : Bool) (workerId : String) (customerId : Option String)
  | cancelJob (now : Nat) (customerId : String)
  | download (now : Nat) (customerId : String)
  | drain (now : Nat) (customerId : String)
  | tick (now : Nat)

/-- The state transition of one public operation (discarding the response). -/
def applyOp : PublicOp → EngineState → EngineState
  | .claim now v w, s => (gettask now v w s).2
  | .submit now v w cid r u outs hr hu, s => (uploadresult now v w cid r u outs hr hu s).2
  | .beat now v w cid, s => (heartbeat now v w cid s).2
  | .cancelJob now cid, s => (cancel now cid s).2
  | .download now cid, s => (getresults now cid s).2
  | .drain now cid, s => (getUpdate now cid s).2
  | .tick now, s => sweep now s

/-- The engine states reachable from the empty tables.  Job creation uses a
generated customerId; generateUniqueCustomerId is designed to never repeat an
id, which the create step records as freshness side conditions: the id names
no existing job, no queued or in-progress unit, and no cancellation entry. -/
inductive Reachable : EngineState → Prop
  | base : Reachable initialState
  | create {s : EngineState} (now : Nat) (customerId taskId cusname : String)
      (code : Bytes) (dataset requirement : Option Bytes) (respn : Nat) :
      Reachable s →
      mapLookup s.customers customerId = none →
      (∀ t ∈ s.taskQueue, t.customerId ≠ customerId) →
      (∀ t ∈ s.taskProgressQueue, t.customerId ≠ customerId) →
      customerId ∉ s.cancelMap →
      Reachable (createJob now customerId taskId cusname code dataset requirement respn s)
  | step {s : EngineState} (op : PublicOp) : Reachable s → Reachable (applyOp op s)

/-! ## Concrete engine states used as claim inputs -/

/-- A state holding one queued unit whose job is absent from the JobStore
(scenario S6: the job was deleted while its unit sat in the queue). -/
def c4State : EngineState := { initialState with taskQueue := [⟨"ghost", "tg"⟩] }

/-- A throwaway job record used as the default of Option.getD when naming
the job stored at a known key. -/
def defaultJob : Job := newJob 0 "x" "x" "x" [] none none 1

/-- Run for C1: a job with numWorkers = 2 whose two units are both claimed
by the same worker W, which then submits once. -/
def c1State : EngineState :=
  (gettask 300 true "W" (gettask 200 true "W"
    (createJob 100 "c" "t" "alice" [1, 2] none none 2 initialState)).2).2

def c1Run : UploadResult × EngineState :=
  uploadresult 400 true "W" "c" [7] [8] [] true true c1State

/-- Witness run for the amended C1 theorem: a 1-worker job claimed and
submitted by V. -/
def c1wState : EngineState :=
  (gettask 200 true "V" (createJob 100 "d" "t2" "bob" [1] none none 1 initialState)).2

def c1wJobPre : Job := (mapLookup c1wState.customers "d").getD defaultJob

def c1wRun : UploadResult × EngineState :=
  uploadresult 300 true "V" "d" [7] [8] [] true true c1wState

def c1wJobPost : Job := (mapLookup c1wRun.2.customers "d").getD defaultJob

/-- Run for C2: a job with numWorkers = 2; W claims once, submits its
result, then sends a heartbeat for the same job. -/
def c2State : EngineState :=
  (uploadresult 300 true "W" "e" [7] [8] [] true true
    (gettask 200 true "W" (createJob 100 "e" "t3" "eve" [1] none none 2 initialState)).2).2

def c2Run : HeartbeatResult × EngineState := heartbeat 400 true "W" (some "e") c2State

/-- A syntactically well-formed state with a full worker list and one queued
stale unit, used to show the claim operation has no staleness guard. -/
def c3Job : Job := { newJob 50 "c" "t" "ann" [] none none 1 with workers := ["W1"] }

def c3State : EngineState :=
  { initialState with taskQueue := [⟨"c", "t"⟩], customers := [("c", c3Job)] }

/-- Base state for C5: W claims one of two units of job e and submits the
result bytes [9] with usage [1]. -/
def c5Base : EngineState :=
  (uploadresult 300 true "W" "e" [9] [1] [] true true
    (gettask 200 true "W" (createJob 100 "e" "t" "eve" [5] none none 2 initialState)).2).2

def c5Job : Job := (mapLookup c5Base.customers "e").getD defaultJob

/-- Base state for C8: a job created at 900 ms whose feed then receives a
progress update at 1000 ms; the drain runs at 2000 ms, one second later. -/
def c8Base : EngineState :=
  addProgressUpdate 1000 "c8" "hello" none
    (createJob 900 "c8" "t8" "carol" [1] none none 2 initialState)

def c8Run : GetUpdateResult × EngineState := getUpdate 2000 "c8" c8Base

/-- Run for C9: a 1-worker job claimed and submitted by V (so isCompleted is
true), then cancelled. -/
def c9State : EngineState :=
  (uploadresult 300 true "V" "d9" [7] [8] [] true true
    (gettask 200 true "V" (createJob 100 "d9" "t9" "bob" [1] none none 1 initialState)).2).2

def c9Run : CancelResult × EngineState := cancel 400 "d9" c9State

def c9JobPre : Job := (mapLookup c9State.customers "d9").getD defaultJob

def c9JobPost : Job := (mapLookup c9Run.2.customers "d9").getD defaultJob

/-- Witness state for C7: a 1-worker job claimed by W at 200 ms and swept at
40000 ms, well past the 30 s heartbeat timeout. -/
def c7State : EngineState :=
  (gettask 200 true "W" (createJob 100 "f" "t4" "dan" [1] none none 1 initialState)).2

def c7Job : Job := (mapLookup c7State.customers "f").getD defaultJob

/-- Witness state for the amended C3 theorem: one freshly created job. -/
def c3wState : EngineState :=
  createJob 100 "cw" "tw" "wit" [4] none none 2 initialState

def c3wJob : Job := (mapLookup c3wState.customers "cw").getD defaultJob

/-- Witness state for the amended C2 theorem: a 1-worker job just claimed by
W, so W holds a heartbeat entry. -/
def c2wState : EngineState :=
  (gettask 200 true "W" (createJob 100 "ew" "tew" "xe" [1] none none 1 initialState)).2

def c2wJob : Job := (mapLookup c2wState.customers "ew").getD defaultJob

/-! ## Invariants and auxiliary specifications -/

/-- Flag monotonicity between two job records: a raised flag stays raised. -/
def JobFlagLe (j j' : Job) : Prop :=
  (j.isCompleted = true → j'.isCompleted = true) ∧
  (j.isCancelled = true → j'.isCancelled = true)

/-- Flag monotonicity between two engine states: every stored job survives
(under the same customerId) with monotone flags. -/
def StateFlagLe (s s' : EngineState) : Prop :=
  ∀ cid j, mapLookup s.customers cid = some j →
    ∃ j', mapLookup s'.customers cid = some j' ∧ JobFlagLe j j'

/-- Number of queued work units carrying a given customerId. -/
def unitCount (q : List WorkUnit) (cid : String) : Nat :=
  (q.filter (fun t => t.customerId == cid)).length

/-- The counting invariant of the claim protocol: for every stored job, the
assigned-worker count plus the queued units of that job never exceed
numWorkers, and every heartbeat key is an assigned worker. -/
def QueueInv (s : EngineState) : Prop :=
  ∀ cid j, mapLookup s.customers cid = some j →
    j.workers.length + unitCount s.taskQueue cid ≤ j.numWorkers ∧
    (∀ x, (mapLookup j.workerHeartbeats x).isSome = true → x ∈ j.workers)

/-- The ids released by the worker loop of one monitor tick, in iteration
order: a worker is released when its heartbeat entry is still present and
stale at the moment the loop reaches it, after which its entries are gone
and later duplicate occurrences are skipped. -/
def releasedIds (now : Nat) : Job → List String → List String
  | _, [] => []
  | j, w :: ws =>
      if staleCheck now j w then w :: releasedIds now (releaseWorker j w) ws
      else releasedIds now j ws

/-- Releasing a list of worker ids in order. -/
def releaseAll (j : Job) (ids : List String) : Job := ids.foldl releaseWorker j

/-! ## Association-list map lemmas -/

theorem mapLookup_mapSet_self {α : Type} (m : JsMap α) (k : String) (v : α) :
    mapLookup (mapSet m k v) k = some v := by
  induction m with
  | nil => simp [mapSet, mapLookup]
  | cons p t ih =>
      obtain ⟨k', v'⟩ := p
      by_cases hk : k' = k <;> simp [mapSet, mapLookup, hk, ih]

theorem mapLookup_mapSet_ne {α : Type} (m : JsMap α) {k k' : String} (v : α)
    (h : k' ≠ k) : mapLookup (mapSet m k v) k' = mapLookup m k' := by
  have hk' : k ≠ k' := Ne.symm h
  induction m with
  | nil => simp [mapSet, mapLookup, hk']
  | cons p t ih =>
      obtain ⟨k0, v0⟩ := p
      by_cases hk : k0 = k
      · subst hk
        simp [mapSet, mapLookup, hk']
      · simp [mapSet, mapLookup, hk, ih]

theorem mapSet_mapSet {α : Type} (m : JsMap α) (k : String) (v v' : α) :
    mapSet (mapSet m k v) k v' = mapSet m k v' := by
  induction m with
  | nil => simp [mapSet]
  | cons p t ih =>
      obtain ⟨k0, v0⟩ := p
      by_cases hk : k0 = k <;> simp [mapSet, hk, ih]

theorem mapLookup_mapErase_self {α : Type} (m : JsMap α) (k : String) :
    mapLookup (mapErase m k) k = none := by
  induction m with
  | nil => simp [mapErase, mapLookup]
  | cons p t ih =>
      obtain ⟨k0, v0⟩ := p
      by_cases hk : k0 = k <;> simp [mapErase, mapLookup, hk, ih]

theorem mapLookup_mapErase_ne {α : Type} (m : JsMap α) {k k' : String}
    (h : k' ≠ k) : mapLookup (mapErase m k) k' = mapLookup m k' := by
  have hk' : k ≠ k' := Ne.symm h
  induction m with
  | nil => simp [mapErase, mapLookup]
  | cons p t ih =>
      obtain ⟨k0, v0⟩ := p
      by_cases hk : k0 = k
      · subst hk
        simp [mapErase, mapLookup, hk', ih]
      · simp [mapErase, mapLookup, hk, ih]

theorem mapLookup_appendUpdate (m : JsMap (List Update)) (cid cid' : String)
    (u : Update) :
    mapLookup (appendUpdate m cid u) cid' =
      if cid' = cid then some (((mapLookup m cid).getD []) ++ [u])
      else mapLookup m cid' := by
  by_cases h : cid' = cid
  · subst h
    simp [appendUpdate, mapLookup_mapSet_self]
  · simp [appendUpdate, h, mapLookup_mapSet_ne _ _ h]

/-! ## Counting queued units of one customer -/

theorem unitCount_nil (cid : String) : unitCount [] cid = 0 := rfl

theorem unitCount_append (q q' : List WorkUnit) (cid : String) :
    unitCount (q ++ q') cid = unitCount q cid + unitCount q' cid := by
  simp [unitCount, List.filter_append]

theorem unitCount_cons (t : WorkUnit) (q : List WorkUnit) (cid : String) :
    unitCount (t :: q) cid =
      (if t.customerId = cid then 1 else 0) + unitCount q cid := by
  by_cases h : t.customerId = cid <;> simp [unitCount, h, Nat.add_comm]

theorem unitCount_replicate (n : Nat) (u : WorkUnit) (cid : String) :
    unitCount (List.replicate n u) cid = if u.customerId = cid then n else 0 := by
  induction n with
  | zero => simp [unitCount]
  | succ k ih =>
      rw [List.replicate_succ, unitCount_cons, ih]
      by_cases h : u.customerId = cid <;> simp [h, Nat.add_comm]

theorem unitCount_filter_ne (q : List WorkUnit) (cid : String) :
    unitCount (q.filter (fun t => t.customerId ≠ cid)) cid = 0 := by
  induction q with
  | nil => rfl
  | cons t rest ih =>
      by_cases h : t.customerId = cid <;>
        simp_all [List.filter_cons, h, unitCount_cons, decide_not]

theorem unitCount_filter_ne_other (q : List WorkUnit) {cid cid' : String}
    (h : cid' ≠ cid) :
    unitCount (q.filter (fun t => t.customerId ≠ cid)) cid' = unitCount q cid' := by
  induction q with
  | nil => rfl
  | cons t rest ih =>
      by_cases ht : t.customerId = cid
      · have hne : t.customerId ≠ cid' := by
          rw [ht]
          exact Ne.symm h
        simp_all [List.filter_cons, unitCount_cons, decide_not]
      · simp_all [List.filter_cons, unitCount_cons, decide_not]

/-! ## Frame lemmas for the update-feed helpers -/

theorem addProgressUpdate_customers (now : Nat) (cid msg : String)
    (p : Option ProgressVal) (s : EngineState) :
    (addProgressUpdate now cid msg p s).customers = s.customers := rfl

theorem addProgressUpdate_taskQueue (now : Nat) (cid msg : String)
    (p : Option ProgressVal) (s : EngineState) :
    (addProgressUpdate now cid msg p s).taskQueue = s.taskQueue := rfl

theorem addProgressUpdate_taskProgressQueue (now : Nat) (cid msg : String)
    (p : Option ProgressVal) (s : EngineState) :
    (addProgressUpdate now cid msg p s).taskProgressQueue = s.taskProgressQueue := rfl

theorem addProgressUpdate_cancelMap (now : Nat) (cid msg : String)
    (p : Option ProgressVal) (s : EngineState) :
    (addProgressUpdate now cid msg p s).cancelMap = s.cancelMap := rfl

theorem addCompletionNotification_customers (now : Nat) (cid : String) (s : EngineState) :
    (addCompletionNotification now cid s).customers = s.customers := by
  unfold addCompletionNotification
  cases mapLookup s.customers cid <;> rfl

theorem addCompletionNotification_taskQueue (now : Nat) (cid : String) (s : EngineState) :
    (addCompletionNotification now cid s).taskQueue = s.taskQueue := by
  unfold addCompletionNotification
  cases mapLookup s.customers cid <;> rfl

theorem addCompletionNotification_taskProgressQueue (now : Nat) (cid : String)
    (s : EngineState) :
    (addCompletionNotification now cid s).taskProgressQueue = s.taskProgressQueue := by
  unfold addCompletionNotification
  cases mapLookup s.customers cid <;> rfl

theorem addCompletionNotification_cancelMap (now : Nat) (cid : String) (s : EngineState) :
    (addCompletionNotification now cid s).cancelMap = s.cancelMap := by
  unfold addCompletionNotification
  cases mapLookup s.customers cid <;> rfl

/-! ## Case analyses of the operations (used by the invariant proofs) -/

theorem uploadresult_cases (now : Nat) (v : Bool) (w cid : String) (r u : Bytes)
    (outs : JsMap Bytes) (hr hu : Bool) (s : EngineState) (res : UploadResult)
    (s' : EngineState) (heq : uploadresult now v w cid r u outs hr hu s = (res, s')) :
    s' = s ∨
    (∃ job, mapLookup s.customers cid = some job ∧ w ∈ job.workers ∧
      (mapLookup job.results w).isSome = false ∧ cid ∉ s.cancelMap ∧
      s'.taskQueue = s.taskQueue ∧ s'.cancelMap = s.cancelMap ∧
      (s'.customers = mapSet s.customers cid (submitStoreJob w r u outs job) ∨
       s'.customers =
          mapSet s.customers cid
            (notifyJob (completeJob now (submitStoreJob w r u outs job))))) := by
  simp only [uploadresult] at heq
  split at heq
  · cases heq
    exact Or.inl rfl
  split at heq
  · cases heq
    exact Or.inl rfl
  split at heq
  · cases heq
    exact Or.inl rfl
  split at heq
  · cases heq
    exact Or.inl rfl
  rename_i job hjob
  split at heq
  · cases heq
    exact Or.inl rfl
  split at heq
  · cases heq
    exact Or.inl rfl
  split at heq
  · cases heq
    exact Or.inl rfl
  rename_i hmem hnc hdup
  split at heq <;> split at heq <;> cases heq <;>
    refine Or.inr ⟨job, hjob, not_not.mp hmem, by simpa using hdup, hnc, ?_, ?_, ?_⟩ <;>
    simp only [addCompletionNotification_taskQueue, addProgressUpdate_taskQueue,
      addCompletionNotification_cancelMap, addProgressUpdate_cancelMap,
      addCompletionNotification_customers, addProgressUpdate_customers,
      mapSet_mapSet] <;>
    first
      | rfl
      | trivial
      | exact Or.inl trivial
      | exact Or.inr trivial

theorem gettask_cases (now : Nat) (v : Bool) (w : String) (s : EngineState) :
    ((gettask now v w s).2.customers = s.customers ∧
     (gettask now v w s).2.taskQueue = s.taskQueue ∧
     (gettask now v w s).2.cancelMap = s.cancelMap) ∨
    (∃ t rest, s.taskQueue = t :: rest ∧
      (gettask now v w s).2.customers = s.customers ∧
      (gettask now v w s).2.taskQueue = rest ∧
      (gettask now v w s).2.cancelMap = s.cancelMap) ∨
    (∃ t rest job, s.taskQueue = t :: rest ∧
      mapLookup s.customers t.customerId = some job ∧
      (gettask now v w s).2.customers =
        mapSet s.customers t.customerId (assignJob now w job) ∧
      (gettask now v w s).2.taskQueue = rest ∧
      (gettask now v w s).2.cancelMap = s.cancelMap) := by
  simp only [gettask]
  split
  · exact Or.inl ⟨rfl, rfl, rfl⟩
  split
  · exact Or.inl ⟨rfl, rfl, rfl⟩
  split
  · rename_i hq
    exact Or.inl ⟨rfl, by rw [hq], rfl⟩
  rename_i t rest hq
  split
  · exact Or.inl ⟨rfl, by rw [hq], rfl⟩
  rename_i job hjob
  split
  · exact Or.inr (Or.inl ⟨t, rest, hq, rfl, rfl, rfl⟩)
  · exact Or.inr (Or.inr ⟨t, rest, job, hq, hjob,
      by simp [addProgressUpdate_customers], by simp [addProgressUpdate_taskQueue],
      by simp [addProgressUpdate_cancelMap]⟩)

theorem heartbeat_cases (now : Nat) (v : Bool) (w : String) (cid : Option String)
    (s : EngineState) :
    ((heartbeat now v w cid s).2 = s) ∨
    (∃ cid0 job, cid = some cid0 ∧ mapLookup s.customers cid0 = some job ∧
      w ∈ job.workers ∧
      (heartbeat now v w cid s).2.customers =
        mapSet s.customers cid0 (beatJob now w job) ∧
      (heartbeat now v w cid s).2.taskQueue = s.taskQueue ∧
      (heartbeat now v w cid s).2.cancelMap = s.cancelMap) := by
  simp only [heartbeat]
  split
  · exact Or.inl rfl
  split
  · exact Or.inl rfl
  split
  · exact Or.inl rfl
  rename_i cid0
  split
  · exact Or.inl rfl
  split
  · exact Or.inl rfl
  rename_i job hjob
  split
  · exact Or.inl rfl
  split
  · exact Or.inl rfl
  rename_i hmem hnc
  exact Or.inr ⟨cid0, job, rfl, hjob, not_not.mp hmem, rfl, rfl, rfl⟩

theorem cancel_cases (now : Nat) (cid : String) (s : EngineState) :
    ((cancel now cid s).2 = s) ∨
    ((cancel now cid s).2.taskQueue =
        s.taskQueue.filter (fun t => t.customerId ≠ cid) ∧
      ((cancel now cid s).2.customers = s.customers ∨
       ∃ job, mapLookup s.customers cid = some job ∧
         (cancel now cid s).2.customers =
           mapSet s.customers cid (cancelJobRec job))) := by
  simp only [cancel]
  split
  · exact Or.inl rfl
  split
  · exact Or.inr ⟨rfl, Or.inl rfl⟩
  · rename_i job hjob
    exact Or.inr ⟨by simp [addProgressUpdate_taskQueue],
      Or.inr ⟨job, hjob, by simp [addProgressUpdate_customers]⟩⟩

theorem getresults_cases (now : Nat) (cid : String) (s : EngineState) :
    ((getresults now cid s).2 = s) ∨
    (∃ job, mapLookup s.customers cid = some job ∧
      (getresults now cid s).2.taskQueue = s.taskQueue ∧
      (getresults now cid s).2.cancelMap = s.cancelMap ∧
      ((getresults now cid s).2.customers =
          mapSet s.customers cid (completeJob now job) ∨
       (getresults now cid s).2.customers =
          mapSet (mapSet s.customers cid (completeJob now job)) cid
            (notifyJob (completeJob now job)))) := by
  simp only [getresults]
  split
  · exact Or.inl rfl
  rename_i job hjob
  split
  · exact Or.inl rfl
  split
  · exact Or.inl rfl
  split
  · exact Or.inl rfl
  split
  · exact Or.inr ⟨job, hjob, rfl, rfl, Or.inl rfl⟩
  · exact Or.inr ⟨job, hjob,
      by simp [addCompletionNotification_taskQueue],
      by simp [addCompletionNotification_cancelMap],
      Or.inr (by simp [addCompletionNotification_customers])⟩

theorem getUpdate_frame (now : Nat) (cid : String) (s : EngineState) :
    (getUpdate now cid s).2.customers = s.customers ∧
    (getUpdate now cid s).2.taskQueue = s.taskQueue ∧
    (getUpdate now cid s).2.taskProgressQueue = s.taskProgressQueue ∧
    (getUpdate now cid s).2.cancelMap = s.cancelMap := by
  simp only [getUpdate]
  split
  · exact ⟨rfl, rfl, rfl, rfl⟩
  split
  · exact ⟨rfl, rfl, rfl, rfl⟩
  split
  · refine ⟨?_, ?_, ?_, ?_⟩ <;>
      simp [addCompletionNotification_customers, addCompletionNotification_taskQueue,
        addCompletionNotification_taskProgressQueue, addCompletionNotification_cancelMap]
  · exact ⟨rfl, rfl, rfl, rfl⟩

theorem createJob_fields (now : Nat) (cid tid cusname : String) (code : Bytes)
    (dataset requirement : Option Bytes) (respn : Nat) (s : EngineState) :
    (createJob now cid tid cusname code dataset requirement respn s).customers =
      mapSet s.customers cid
        (newJob now cid tid cusname code dataset requirement
          (if respn = 0 then 1 else respn)) ∧
    (createJob now cid tid cusname code dataset requirement respn s).taskQueue =
      s.taskQueue ++ List.replicate (if respn = 0 then 1 else respn) ⟨cid, tid⟩ ∧
    (createJob now cid tid cusname code dataset requirement respn s).cancelMap =
      s.cancelMap := by
  refine ⟨?_, ?_, ?_⟩ <;> rfl

/-! ## C6: dataset splitting -/

/-- Concatenating ceil-sized chunks reproduces the list as soon as the chunks
cover its length. -/
theorem flatten_chunks (n c : Nat) (l : Bytes) (hcov : l.length ≤ n * c) :
    ((List.range n).map (fun i => (l.drop (i * c)).take c)).flatten = l := by
  induction n generalizing l with
  | zero =>
      have : l = [] := List.eq_nil_of_length_eq_zero (Nat.le_zero.mp (by simpa using hcov))
      simp [this]
  | succ k ih =>
      rw [List.range_succ_eq_map]
      simp only [List.map_cons, List.map_map, List.flatten_cons]
      have hdrop : ∀ i : Nat, l.drop ((i + 1) * c) = (l.drop c).drop (i * c) := by
        intro i
        rw [List.drop_drop]
        congr 1
        ring
      have hrw :
          (List.range k).map ((fun i => (l.drop (i * c)).take c) ∘ Nat.succ) =
          (List.range k).map (fun i => ((l.drop c).drop (i * c)).take c) := by
        apply List.map_congr_left
        intro i _
        simp [Function.comp, Nat.succ_eq_add_one, hdrop i]
      have hlen : (l.drop c).length ≤ k * c := by
        have hexp : (k + 1) * c = k * c + c := by ring
        simp only [List.length_drop]
        omega
      rw [hrw, ih (l.drop c) hlen]
      simp

/-- Claim C6: splitDataset with blob length L and shard count N ≥ 1 uses
chunk = ceil(L/N) and makes shard i the byte range
[i*chunk, min((i+1)*chunk, L)); the shards are N in number, in order,
disjoint, and concatenate back to the original blob; for L = 10 and N = 3
the shard lengths are 4, 4, 2; and for an empty or absent blob every shard
carries no bytes. -/
theorem splitDataset_spec (l : Bytes) (n : Nat) (hn : 1 ≤ n) :
    (0 < l.length →
      splitDataset (some l) n =
        (List.range n).map
          (fun i => some ((l.drop (i * ((l.length + n - 1) / n))).take
            ((l.length + n - 1) / n)))) ∧
    (∀ b : Option Bytes, (splitDataset b n).length = n) ∧
    ((splitDataset (some l) n).map shardBytes).flatten = l ∧
    (∀ b : Option Bytes, b = none ∨ b = some [] →
      ∀ sh ∈ splitDataset b n, shardBytes sh = []) ∧
    (splitDataset (some [0, 1, 2, 3, 4, 5, 6, 7, 8, 9]) 3).map
      (fun sh => (shardBytes sh).length) = [4, 4, 2] := by
  have hcov : l.length ≤ n * ((l.length + n - 1) / n) := by
    rcases Nat.eq_zero_or_pos l.length with hl | hl
    · simp [hl]
    · have h1 := Nat.div_add_mod (l.length + n - 1) n
      have h2 : (l.length + n - 1) % n < n := Nat.mod_lt _ (by omega)
      omega
  refine ⟨?_, ?_, ?_, ?_, by decide⟩
  · intro hl
    have : ¬ l.length = 0 := by omega
    simp [splitDataset, this]
  · intro b
    cases b with
    | none => simp [splitDataset]
    | some l' =>
        by_cases h : l'.length = 0 <;> simp [splitDataset, h]
  · by_cases h : l.length = 0
    · have : l = [] := List.eq_nil_of_length_eq_zero h
      simp [splitDataset, h, this, shardBytes]
    · simp only [splitDataset, h, if_false, List.map_map]
      have hrw :
          (List.range n).map
            (shardBytes ∘ fun i => some ((l.drop (i * ((l.length + n - 1) / n))).take
              ((l.length + n - 1) / n))) =
          (List.range n).map
            (fun i => (l.drop (i * ((l.length + n - 1) / n))).take
              ((l.length + n - 1) / n)) := by
        apply List.map_congr_left
        intro i _
        simp [Function.comp, shardBytes]
      rw [hrw]
      exact flatten_chunks n _ l hcov
  · rintro b (rfl | rfl) sh hsh
    · simp only [splitDataset] at hsh
      have := List.eq_of_mem_replicate hsh
      simp [this, shardBytes]
    · simp only [splitDataset, List.length_nil, if_pos rfl] at hsh
      have := List.eq_of_mem_replicate hsh
      simp [this, shardBytes]

/-- Witness for C6 at the concrete blob of scenario S5 (L = 10, N = 3). -/
theorem splitDataset_spec_witness :
    1 ≤ 3 ∧
    (((splitDataset (some [0, 1, 2, 3, 4, 5, 6, 7, 8, 9]) 3).map shardBytes).flatten =
      [0, 1, 2, 3, 4, 5, 6, 7, 8, 9] ∧
    (splitDataset (some [0, 1, 2, 3, 4, 5, 6, 7, 8, 9]) 3).map
      (fun sh => (shardBytes sh).length) = [4, 4, 2]) :=
  ⟨by decide,
   (splitDataset_spec [0, 1, 2, 3, 4, 5, 6, 7, 8, 9] 3 (by decide)).2.2.1,
   (splitDataset_spec [0, 1, 2, 3, 4, 5, 6, 7, 8, 9] 3 (by decide)).2.2.2.2⟩

/-! ## C10: idle heartbeat is pure -/

/-- Claim C10: a heartbeat from a registered worker whose customerId is
absent or the string "idle" answers ok with status idle and returns the
engine state unchanged - no job map, no queue, no flag is touched. -/
theorem heartbeat_idle_is_pure (now : Nat) (w : String) (cid : Option String)
    (s : EngineState) (hw : w ≠ "") (hcid : cid = none ∨ cid = some "idle") :
    heartbeat now true w cid s = (.idle, s) := by
  rcases hcid with rfl | rfl <;> simp [heartbeat, hw]

/-- Witness for C10 on a non-trivial engine state. -/
theorem heartbeat_idle_is_pure_witness :
    ("W" : String) ≠ "" ∧
    heartbeat 500 true "W"
      (some "idle") (createJob 100 "c" "t" "alice" [1] none none 2 initialState) =
      (.idle, createJob 100 "c" "t" "alice" [1] none none 2 initialState) :=
  ⟨by decide,
   heartbeat_idle_is_pure 500 "W" (some "idle")
     (createJob 100 "c" "t" "alice" [1] none none 2 initialState)
     (by decide) (Or.inr rfl)⟩

/-! ## C4: claim of a unit whose job is gone -/

/-- Claim C4 counterexample: popping a unit whose job vanished does not
discard the unit and does not answer no-work; the handler answers the 404
customer-not-found error and unshifts the unit back, so the queue length
after the claim equals the length before it instead of dropping by one. -/
theorem gettask_unknown_job_requeues_cx :
    (gettask 100 true "W" c4State).1 = .unknownJob ∧
    (gettask 100 true "W" c4State).1 ≠ .noWork ∧
    (gettask 100 true "W" c4State).2.taskQueue.length = 1 ∧
    c4State.taskQueue.length = 1 := by
  decide

/-- Claim C4 (amended): when the popped unit names a job that no longer
exists, the claim answers the customer-not-found error and returns the unit
to the head of the queue, leaving the whole engine state - in particular the
TaskQueue and its length - exactly as before the claim. -/
theorem gettask_unknown_job_restores_queue (now : Nat) (w : String) (s : EngineState)
    (t : WorkUnit) (rest : List WorkUnit) (hw : w ≠ "")
    (hq : s.taskQueue = t :: rest)
    (hj : mapLookup s.customers t.customerId = none) :
    gettask now true w s = (.unknownJob, s) := by
  obtain ⟨q, tpq, cust, upd, canc⟩ := s
  simp only at hq hj
  subst hq
  simp [gettask, hw, hj]

/-- Witness for the amended C4 theorem at the concrete stale-unit state. -/
theorem gettask_unknown_job_restores_queue_witness :
    ("W" : String) ≠ "" ∧
    c4State.taskQueue = ⟨"ghost", "tg"⟩ :: [] ∧
    mapLookup c4State.customers "ghost" = none ∧
    gettask 100 true "W" c4State = (.unknownJob, c4State) :=
  ⟨by decide, rfl, rfl,
   gettask_unknown_job_restores_queue 100 "W" c4State ⟨"ghost", "tg"⟩ []
     (by decide) rfl rfl⟩

/-! ## C5: at-most-once result per worker per job -/

/-- Claim C5: a further submit by a worker that already has a results entry
answers duplicate and leaves the whole engine state unchanged, and no
submission for the job ever replaces an existing stored result. -/
theorem upload_duplicate_rejected_and_results_immutable
    (now : Nat) (w cid : String) (r u : Bytes) (outs : JsMap Bytes)
    (s : EngineState) (j : Job) (r0 : Bytes)
    (hw : w ≠ "") (hcid : cid ≠ "")
    (hj : mapLookup s.customers cid = some j)
    (hres : mapLookup j.results w = some r0) :
    (w ∈ j.workers → cid ∉ s.cancelMap →
      uploadresult now true w cid r u outs true true s = (.duplicate, s)) ∧
    (∀ (n2 : Nat) (v2 : Bool) (w2 : String) (r2 u2 : Bytes) (outs2 : JsMap Bytes)
      (hr2 hu2 : Bool) (j2 : Job),
      mapLookup ((uploadresult n2 v2 w2 cid r2 u2 outs2 hr2 hu2 s).2).customers cid =
        some j2 →
      mapLookup j2.results w = some r0) := by
  constructor
  · intro hmem hnc
    have hsome : (mapLookup j.results w).isSome = true := by simp [hres]
    simp [uploadresult, hw, hcid, hj, hmem, hnc, hsome]
  · intro n2 v2 w2 r2 u2 outs2 hr2 hu2 j2 hj2
    rcases uploadresult_cases n2 v2 w2 cid r2 u2 outs2 hr2 hu2 s
        (uploadresult n2 v2 w2 cid r2 u2 outs2 hr2 hu2 s).1
        (uploadresult n2 v2 w2 cid r2 u2 outs2 hr2 hu2 s).2 rfl with
      hsame | ⟨job, hjob, hmem2, hdup, hnc2, hq, hcm, hcust⟩
    · rw [hsame, hj] at hj2
      cases hj2
      exact hres
    · rw [hj] at hjob
      injection hjob with hjj
      subst hjj
      have hw2w : w2 ≠ w := by
        intro e
        rw [e, hres] at hdup
        simp at hdup
      have hpres : mapLookup (submitStoreJob w2 r2 u2 outs2 j).results w = some r0 := by
        simp [submitStoreJob, mapLookup_mapSet_ne _ _ (Ne.symm hw2w), hres]
      rcases hcust with h1 | h1
      · rw [h1, mapLookup_mapSet_self] at hj2
        cases hj2
        exact hpres
      · rw [h1, mapLookup_mapSet_self] at hj2
        cases hj2
        simpa [notifyJob, completeJob] using hpres

/-- Witness for C5: after W submitted [9] for job e, a second submission
with different bytes [3] answers duplicate and leaves the state unchanged;
the stored entry is still [9]. -/
theorem upload_duplicate_rejected_and_results_immutable_witness :
    (("W" : String) ≠ "" ∧ ("e" : String) ≠ "" ∧
      mapLookup c5Base.customers "e" = some c5Job ∧
      mapLookup c5Job.results "W" = some [9]) ∧
    uploadresult 400 true "W" "e" [3] [4] [] true true c5Base = (.duplicate, c5Base) ∧
    mapLookup c5Job.results "W" = some [9] := by
  have h := upload_duplicate_rejected_and_results_immutable 400 "W" "e" [3] [4] []
    c5Base c5Job [9] (by decide) (by decide) (by decide) (by decide)
  exact ⟨⟨by decide, by decide, by decide, by decide⟩,
    h.1 (by decide) (by decide),
    h.2 400 true "W" [3] [4] [] true true c5Job (by decide)⟩

/-! ## C8: the drain of the update feed -/

/-- Claim C8 (code-bug evidence): the buffer of customer c8 holds two
progress updates with ISO-string timestamps; the drain at 2000 ms - one
second after the last append, far under the 60 s window - returns them but
retains neither, because `update.timestamp > Date.now() - 60000` compares an
ISO datetime string against a number, which is always false, so only
status "completed" entries ever survive a drain. -/
theorem drain_drops_recent_progress_updates :
    ((mapLookup c8Base.taskUpdates "c8").getD []).map (fun u => (u.status, u.timestamp)) =
      [("progress", toISOString 900), ("progress", toISOString 1000)] ∧
    2000 - 1000 < 60000 ∧
    c8Run.1 = .ok ((mapLookup c8Base.taskUpdates "c8").getD []) true false ∧
    mapLookup c8Run.2.taskUpdates "c8" = some [] := by
  decide

/-! ## C1: completion versus the size of the results map -/

/-- Claim C1 counterexample: with numWorkers = 2 and worker W claiming both
units (a worker may claim the same job twice), a single submission makes
areAllResultsAvailable true, so submit sets isCompleted = true in a state
where the results map has 1 entry while numWorkers = 2. -/
theorem upload_completes_with_duplicate_worker_slots :
    ((mapLookup c1Run.2.customers "c").map
        (fun j => (j.isCompleted, j.results.length, j.numWorkers, j.workers))) =
      some (true, 1, 2, ["W", "W"]) ∧ (1 : Nat) ≠ 2 := by
  decide

/-- Reading areAllResultsAvailable through the stored job. -/
theorem areAllResultsAvailable_eq (s : EngineState) (cid : String) (j : Job)
    (hj : mapLookup s.customers cid = some j) :
    areAllResultsAvailable s cid =
      (j.workers.length == j.numWorkers &&
       j.workers.all (fun w =>
         (mapLookup j.results w).isSome && (mapLookup j.usage w).isSome)) := by
  simp [areAllResultsAvailable, hj]

/-- Claim C1 (amended): the submit operation raises isCompleted only in a
state where |assignedWorkers| = numWorkers and every listed assigned worker
has both a results entry and a usage entry; when the same workerId occupies
several slots of assignedWorkers the number of results entries can stay
below numWorkers, as the counterexample shows. -/
theorem upload_sets_completed_only_when_every_assigned_has_result
    (now : Nat) (v : Bool) (w cid : String) (r u : Bytes) (outs : JsMap Bytes)
    (hr hu : Bool) (s : EngineState) (res : UploadResult) (s' : EngineState)
    (j j' : Job)
    (heq : uploadresult now v w cid r u outs hr hu s = (res, s'))
    (hj : mapLookup s.customers cid = some j) (hpre : j.isCompleted = false)
    (hj' : mapLookup s'.customers cid = some j') (hpost : j'.isCompleted = true) :
    j'.workers.length = j'.numWorkers ∧
    ∀ x ∈ j'.workers, (mapLookup j'.results x).isSome ∧ (mapLookup j'.usage x).isSome := by
  simp only [uploadresult] at heq
  split at heq
  · cases heq
    rw [hj'] at hj
    injection hj with e
    simp [e, hpre] at hpost
  split at heq
  · cases heq
    rw [hj'] at hj
    injection hj with e
    simp [e, hpre] at hpost
  split at heq
  · cases heq
    rw [hj'] at hj
    injection hj with e
    simp [e, hpre] at hpost
  split at heq
  · cases heq
    rw [hj'] at hj
    injection hj with e
    simp [e, hpre] at hpost
  rename_i job hjob
  rw [hjob] at hj
  injection hj with e
  subst e
  split at heq
  · cases heq
    rw [hj'] at hjob
    injection hjob with e
    simp [e, hpre] at hpost
  split at heq
  · cases heq
    rw [hj'] at hjob
    injection hjob with e
    simp [e, hpre] at hpost
  split at heq
  · cases heq
    rw [hj'] at hjob
    injection hjob with e
    simp [e, hpre] at hpost
  rename_i hmem hnc hdup
  split at heq <;> split at heq <;> cases heq <;>
    first
    | -- completion branch: j' is the notified completed stored job
      (rename_i hguard
       simp only [addCompletionNotification_customers, addProgressUpdate_customers,
         mapSet_mapSet, mapLookup_mapSet_self] at hj'
       injection hj' with e
       subst e
       rw [areAllResultsAvailable_eq _ _ (submitStoreJob w r u outs job)
         (by simp only [addProgressUpdate_customers, mapLookup_mapSet_self])] at hguard
       simp only [Bool.and_eq_true, beq_iff_eq, List.all_eq_true] at hguard
       obtain ⟨⟨hlen, hall⟩, _⟩ := hguard
       refine ⟨by simpa [notifyJob, completeJob] using hlen, ?_⟩
       intro x hx
       have := hall x (by simpa [notifyJob, completeJob] using hx)
       simpa [notifyJob, completeJob] using this)
    | -- no-completion branch: the stored job keeps isCompleted = false
      (simp only [addProgressUpdate_customers, mapLookup_mapSet_self] at hj'
       injection hj' with e
       subst e
       simp only [submitStoreJob] at hpost
       rw [hpre] at hpost
       cases hpost)

/-- Witness for the amended C1 theorem: job d with one worker completes on
the only submission, and the completed stored job has its single assigned
worker covered by results and usage. -/
theorem upload_sets_completed_only_when_every_assigned_has_result_witness :
    (uploadresult 300 true "V" "d" [7] [8] [] true true c1wState = (c1wRun.1, c1wRun.2) ∧
      mapLookup c1wState.customers "d" = some c1wJobPre ∧
      c1wJobPre.isCompleted = false ∧
      mapLookup c1wRun.2.customers "d" = some c1wJobPost ∧
      c1wJobPost.isCompleted = true) ∧
    (c1wJobPost.workers.length = c1wJobPost.numWorkers ∧
      ∀ x ∈ c1wJobPost.workers,
        (mapLookup c1wJobPost.results x).isSome ∧ (mapLookup c1wJobPost.usage x).isSome) :=
  ⟨⟨rfl, by decide, by decide, by decide, by decide⟩,
   upload_sets_completed_only_when_every_assigned_has_result 300 true "V" "d" [7] [8] []
     true true c1wState c1wRun.1 c1wRun.2 c1wJobPre c1wJobPost rfl
     (by decide) (by decide) (by decide) (by decide)⟩

/-! ## C2: heartbeats versus submitted results -/

/-- Claim C2 counterexample: worker W of job e has already submitted (it has
a results entry and no heartbeats entry), yet its next heartbeat succeeds
with status active and re-creates heartbeats[W], so W is in heartbeats while
also in results - the claimed equivalence fails on its results side. -/
theorem heartbeat_after_submit_recreates_entry :
    c2Run.1 = .active ∧
    ((mapLookup c2Run.2.customers "e").map
        (fun j => ((mapLookup j.workerHeartbeats "W").isSome,
                   (mapLookup j.results "W").isSome, j.workers))) =
      some (true, true, ["W"]) := by
  decide

/-! ## C9: monotonicity of the two flags -/

theorem jobFlagLe_refl (j : Job) : JobFlagLe j j := ⟨id, id⟩

theorem stateFlagLe_refl (s : EngineState) : StateFlagLe s s :=
  fun _ j hj => ⟨j, hj, jobFlagLe_refl j⟩

theorem stateFlagLe_trans {a b c : EngineState} (h1 : StateFlagLe a b)
    (h2 : StateFlagLe b c) : StateFlagLe a c := by
  intro cid j hj
  obtain ⟨j2, hj2, l2⟩ := h1 cid j hj
  obtain ⟨j3, hj3, l3⟩ := h2 cid j2 hj2
  exact ⟨j3, hj3, fun h => l3.1 (l2.1 h), fun h => l3.2 (l2.2 h)⟩

theorem stateFlagLe_of_customers_eq {s s' : EngineState}
    (h : s'.customers = s.customers) : StateFlagLe s s' := by
  intro cid j hj
  exact ⟨j, by rw [h]; exact hj, jobFlagLe_refl j⟩

theorem stateFlagLe_of_mapSet {s s' : EngineState} {cid : String} {j j2 : Job}
    (hj : mapLookup s.customers cid = some j) (hle : JobFlagLe j j2)
    (h : s'.customers = mapSet s.customers cid j2) : StateFlagLe s s' := by
  intro cid' j0 hj0
  by_cases e : cid' = cid
  · subst e
    rw [hj0] at hj
    injection hj with hjj
    refine ⟨j2, by rw [h]; exact mapLookup_mapSet_self _ _ _, ?_⟩
    rw [← hjj] at hle
    exact hle
  · exact ⟨j0, by rw [h, mapLookup_mapSet_ne _ _ e]; exact hj0, jobFlagLe_refl j0⟩

theorem stateFlagLe_gettask (now : Nat) (v : Bool) (w : String) (s : EngineState) :
    StateFlagLe s (gettask now v w s).2 := by
  rcases gettask_cases now v w s with ⟨hc, _, _⟩ | ⟨t, rest, hq, hc, _, _⟩ |
    ⟨t, rest, job, hq, hjob, hc, _, _⟩
  · exact stateFlagLe_of_customers_eq hc
  · exact stateFlagLe_of_customers_eq hc
  · exact stateFlagLe_of_mapSet hjob (by simp [assignJob, JobFlagLe]) hc

theorem stateFlagLe_upload (now : Nat) (v : Bool) (w cid : String) (r u : Bytes)
    (outs : JsMap Bytes) (hr hu : Bool) (s : EngineState) :
    StateFlagLe s (uploadresult now v w cid r u outs hr hu s).2 := by
  rcases uploadresult_cases now v w cid r u outs hr hu s
      (uploadresult now v w cid r u outs hr hu s).1
      (uploadresult now v w cid r u outs hr hu s).2 rfl with
    hsame | ⟨job, hjob, _, _, _, _, _, hcust⟩
  · rw [hsame]
    exact stateFlagLe_refl s
  · rcases hcust with h | h
    · exact stateFlagLe_of_mapSet hjob (by simp [submitStoreJob, JobFlagLe]) h
    · exact stateFlagLe_of_mapSet hjob
        (by simp [submitStoreJob, JobFlagLe, notifyJob, completeJob]) h

theorem stateFlagLe_heartbeat (now : Nat) (v : Bool) (w : String)
    (cid : Option String) (s : EngineState) :
    StateFlagLe s (heartbeat now v w cid s).2 := by
  rcases heartbeat_cases now v w cid s with hsame | ⟨cid0, job, _, hjob, _, hc, _, _⟩
  · rw [hsame]
    exact stateFlagLe_refl s
  · exact stateFlagLe_of_mapSet hjob (by simp [beatJob, JobFlagLe]) hc

theorem stateFlagLe_cancel (now : Nat) (cid : String) (s : EngineState) :
    StateFlagLe s (cancel now cid s).2 := by
  rcases cancel_cases now cid s with hsame | ⟨_, hc | ⟨job, hjob, hc⟩⟩
  · rw [hsame]
    exact stateFlagLe_refl s
  · exact stateFlagLe_of_customers_eq hc
  · exact stateFlagLe_of_mapSet hjob (by simp [cancelJobRec, JobFlagLe]) hc

theorem stateFlagLe_getresults (now : Nat) (cid : String) (s : EngineState) :
    StateFlagLe s (getresults now cid s).2 := by
  rcases getresults_cases now cid s with hsame | ⟨job, hjob, _, _, hc | hc⟩
  · rw [hsame]
    exact stateFlagLe_refl s
  · exact stateFlagLe_of_mapSet hjob (by simp [completeJob, JobFlagLe]) hc
  · have hcc : (getresults now cid s).2.customers =
        mapSet s.customers cid (notifyJob (completeJob now job)) := by
      rw [hc, mapSet_mapSet]
    exact stateFlagLe_of_mapSet hjob (by simp [completeJob, notifyJob, JobFlagLe]) hcc

theorem stateFlagLe_getUpdate (now : Nat) (cid : String) (s : EngineState) :
    StateFlagLe s (getUpdate now cid s).2 :=
  stateFlagLe_of_customers_eq (getUpdate_frame now cid s).1

/-- The worker loop never touches the completion and cancellation flags,
the worker budget, or the pending counter of the job it rescues. -/
theorem sweepWorkersLoop_job_fields (now : Nat) (cid tid : String)
    (ws : List String) :
    ∀ (j : Job) (q : List WorkUnit) (m : JsMap (List Update)),
      (sweepWorkersLoop now cid tid (j, q, m) ws).1.isCompleted = j.isCompleted ∧
      (sweepWorkersLoop now cid tid (j, q, m) ws).1.isCancelled = j.isCancelled ∧
      (sweepWorkersLoop now cid tid (j, q, m) ws).1.numWorkers = j.numWorkers ∧
      (sweepWorkersLoop now cid tid (j, q, m) ws).1.pendingWorkers = j.pendingWorkers := by
  induction ws with
  | nil => intro j q m; exact ⟨rfl, rfl, rfl, rfl⟩
  | cons w rest ih =>
      intro j q m
      simp only [sweepWorkersLoop]
      split
      · have h := ih (releaseWorker j w) (q ++ [⟨cid, tid⟩])
          (appendUpdate m cid
            { customerId := cid,
              text := "Worker " ++ w ++ " timed out. Reassigning task...",
              timestamp := toISOString now, status := "progress",
              isCompletion := false, progress := none })
        simpa [releaseWorker] using h
      · exact ih j q m

theorem stateFlagLe_sweepTask (now : Nat) (s : EngineState) (task : WorkUnit) :
    StateFlagLe s (sweepTask now s task) := by
  unfold sweepTask
  split
  · exact stateFlagLe_of_customers_eq rfl
  rename_i j hjob
  split
  · exact stateFlagLe_of_customers_eq rfl
  · rcases hloop : sweepWorkersLoop now task.customerId task.taskId
      (j, s.taskQueue, s.taskUpdates) j.workers with ⟨j', q', m'⟩
    have hf := sweepWorkersLoop_job_fields now task.customerId task.taskId
      j.workers j s.taskQueue s.taskUpdates
    rw [hloop] at hf
    have h1 : j'.isCompleted = j.isCompleted := hf.1
    have h2 : j'.isCancelled = j.isCancelled := hf.2.1
    refine stateFlagLe_of_mapSet hjob ⟨?_, ?_⟩ rfl
    · intro h
      rw [h1, h]
    · intro h
      rw [h2, h]

theorem stateFlagLe_sweep_foldl (now : Nat) (l : List WorkUnit) :
    ∀ s : EngineState, StateFlagLe s (l.foldl (sweepTask now) s) := by
  induction l with
  | nil => intro s; exact stateFlagLe_refl s
  | cons t rest ih =>
      intro s
      exact stateFlagLe_trans (stateFlagLe_sweepTask now s t) (ih (sweepTask now s t))

theorem stateFlagLe_applyOp (op : PublicOp) (s : EngineState) :
    StateFlagLe s (applyOp op s) := by
  cases op with
  | claim now v w => exact stateFlagLe_gettask now v w s
  | submit now v w cid r u outs hr hu => exact stateFlagLe_upload now v w cid r u outs hr hu s
  | beat now v w cid => exact stateFlagLe_heartbeat now v w cid s
  | cancelJob now cid => exact stateFlagLe_cancel now cid s
  | download now cid => exact stateFlagLe_getresults now cid s
  | drain now cid => exact stateFlagLe_getUpdate now cid s
  | tick now => exact stateFlagLe_sweep_foldl now s.taskProgressQueue s

/-- Claim C9 (amended): under every public operation - claim, submit,
heartbeat, cancel, download, drain and the monitor tick - both flags are
monotone: a job whose isCompleted or isCancelled flag is true keeps that
flag.  The two flags are however not mutually exclusive; see the
counterexample, where cancelling a completed job raises both. -/
theorem public_ops_flag_monotone (op : PublicOp) (s : EngineState) (cid : String)
    (j j' : Job) (hj : mapLookup s.customers cid = some j)
    (hj' : mapLookup (applyOp op s).customers cid = some j') :
    (j.isCompleted = true → j'.isCompleted = true) ∧
    (j.isCancelled = true → j'.isCancelled = true) := by
  obtain ⟨j2, hj2, hle⟩ := stateFlagLe_applyOp op s cid j hj
  rw [hj'] at hj2
  injection hj2 with e
  rw [e]
  exact hle

/-- Witness for the amended C9 theorem: cancelling the completed job d9
keeps isCompleted true (and the pre-state flags are as assumed). -/
theorem public_ops_flag_monotone_witness :
    (mapLookup c9State.customers "d9" = some c9JobPre ∧
      mapLookup (applyOp (.cancelJob 400 "d9") c9State).customers "d9" = some c9JobPost ∧
      c9JobPre.isCompleted = true ∧ c9JobPre.isCancelled = false) ∧
    (c9JobPre.isCompleted = true → c9JobPost.isCompleted = true) ∧
    (c9JobPre.isCancelled = true → c9JobPost.isCancelled = true) :=
  ⟨⟨by decide, by decide, by decide, by decide⟩,
   public_ops_flag_monotone (.cancelJob 400 "d9") c9State "d9" c9JobPre c9JobPost
     (by decide) (by decide)⟩

/-- Claim C9 counterexample: job d9 completed through its only submission;
the subsequent cancel leaves isCompleted = true and sets isCancelled = true,
so the two flags are not mutually exclusive. -/
theorem cancel_after_completion_sets_both_flags :
    ((mapLookup c9Run.2.customers "d9").map
        (fun j => (j.isCompleted, j.isCancelled))) = some (true, true) := by
  decide

/-! ## The counting invariant: preservation by every operation -/

theorem staleCheck_isSome {now : Nat} {j : Job} {w : String}
    (h : staleCheck now j w = true) :
    (mapLookup j.workerHeartbeats w).isSome = true := by
  unfold staleCheck at h
  cases hl : mapLookup j.workerHeartbeats w with
  | none =>
      rw [hl] at h
      cases h
  | some lb => rfl

theorem length_filter_ne_succ_le {w : String} {l : List String} (h : w ∈ l) :
    (l.filter (fun x => x ≠ w)).length + 1 ≤ l.length := by
  induction l with
  | nil => cases h
  | cons a rest ih =>
      by_cases haw : a = w
      · subst haw
        have h1 := List.length_filter_le (fun x => decide (x ≠ a)) rest
        have h2 : (a :: rest).filter (fun x => x ≠ a) = rest.filter (fun x => x ≠ a) := by
          simp [List.filter_cons]
        rw [h2]
        simp only [List.length_cons]
        omega
      · have h2 : (a :: rest).filter (fun x => x ≠ w) =
            a :: rest.filter (fun x => x ≠ w) := by
          simp [List.filter_cons, haw]
        rcases List.mem_cons.mp h with h1 | h1
        · exact absurd h1.symm haw
        · have h3 := ih h1
          rw [h2]
          simp only [List.length_cons]
          omega

theorem unitCount_eq_zero {q : List WorkUnit} {cid : String}
    (h : ∀ t ∈ q, t.customerId ≠ cid) : unitCount q cid = 0 := by
  induction q with
  | nil => rfl
  | cons t rest ih =>
      rw [unitCount_cons]
      have h1 := h t (by simp)
      have h2 := ih (fun t' ht' => h t' (by simp [ht']))
      simp [h1, h2]

/-- The worker loop keeps the heartbeat keys inside the worker list, keeps
the sum of worker-list length and queued units of the swept job bounded by
numWorkers, and only ever appends units of the swept job. -/
theorem sweepWorkersLoop_queueInv (now : Nat) (cid tid : String) (ws : List String) :
    ∀ (j : Job) (q : List WorkUnit) (m : JsMap (List Update)) (j' : Job)
      (q' : List WorkUnit) (m' : JsMap (List Update)),
      sweepWorkersLoop now cid tid (j, q, m) ws = (j', q', m') →
      (∀ x, (mapLookup j.workerHeartbeats x).isSome = true → x ∈ j.workers) →
      j.workers.length + unitCount q cid ≤ j.numWorkers →
      ((∀ x, (mapLookup j'.workerHeartbeats x).isSome = true → x ∈ j'.workers) ∧
       j'.workers.length + unitCount q' cid ≤ j'.numWorkers ∧
       (∀ cid2, cid2 ≠ cid → unitCount q' cid2 = unitCount q cid2)) := by
  induction ws with
  | nil =>
      intro j q m j' q' m' heq hhb hbound
      cases heq
      exact ⟨hhb, hbound, fun _ _ => rfl⟩
  | cons w rest ih =>
      intro j q m j' q' m' heq hhb hbound
      simp only [sweepWorkersLoop] at heq
      split at heq
      · rename_i hstale
        have hw : w ∈ j.workers := hhb w (staleCheck_isSome hstale)
        have hlen := length_filter_ne_succ_le hw
        have hhb2 : ∀ x, (mapLookup (releaseWorker j w).workerHeartbeats x).isSome = true →
            x ∈ (releaseWorker j w).workers := by
          intro x hx
          simp only [releaseWorker] at hx ⊢
          by_cases e : x = w
          · subst e
            rw [mapLookup_mapErase_self] at hx
            cases hx
          · rw [mapLookup_mapErase_ne _ e] at hx
            have := hhb x hx
            simp [List.mem_filter, this, e]
        have hbound2 : (releaseWorker j w).workers.length +
            unitCount (q ++ [⟨cid, tid⟩]) cid ≤ (releaseWorker j w).numWorkers := by
          have hcnt : unitCount (q ++ [⟨cid, tid⟩]) cid = unitCount q cid + 1 := by
            rw [unitCount_append]
            simp [unitCount_cons, unitCount_nil]
          simp only [releaseWorker, hcnt]
          omega
        obtain ⟨a, b, c⟩ := ih _ _ _ _ _ _ heq hhb2 hbound2
        refine ⟨a, b, fun cid2 hne => ?_⟩
        rw [c cid2 hne, unitCount_append]
        simp [unitCount_cons, unitCount_nil, Ne.symm hne]
      · exact ih _ _ _ _ _ _ heq hhb hbound

theorem queueInv_sweepTask (now : Nat) (s : EngineState) (task : WorkUnit)
    (h : QueueInv s) : QueueInv (sweepTask now s task) := by
  unfold sweepTask
  split
  · intro cid j hj
    exact h cid j hj
  rename_i j0 hjob
  split
  · intro cid j hj
    exact h cid j hj
  · rcases hloop : sweepWorkersLoop now task.customerId task.taskId
      (j0, s.taskQueue, s.taskUpdates) j0.workers with ⟨j', q', m'⟩
    have hbase := h task.customerId j0 hjob
    have hli := sweepWorkersLoop_queueInv now task.customerId task.taskId
      j0.workers j0 s.taskQueue s.taskUpdates j' q' m' hloop hbase.2 hbase.1
    intro cid2 j2 hj2
    simp only at hj2 ⊢
    by_cases e : cid2 = task.customerId
    · subst e
      rw [mapLookup_mapSet_self] at hj2
      injection hj2 with e2
      subst e2
      exact ⟨hli.2.1, hli.1⟩
    · rw [mapLookup_mapSet_ne _ _ e] at hj2
      have hold := h cid2 j2 hj2
      refine ⟨?_, hold.2⟩
      rw [hli.2.2 cid2 e]
      exact hold.1

theorem queueInv_sweep_foldl (now : Nat) (l : List WorkUnit) :
    ∀ s : EngineState, QueueInv s → QueueInv (l.foldl (sweepTask now) s) := by
  induction l with
  | nil => intro s h; exact h
  | cons t rest ih =>
      intro s h
      exact ih (sweepTask now s t) (queueInv_sweepTask now s t h)

theorem queueInv_gettask (now : Nat) (v : Bool) (w : String) (s : EngineState)
    (h : QueueInv s) : QueueInv (gettask now v w s).2 := by
  rcases gettask_cases now v w s with ⟨hc, hq, _⟩ | ⟨t, rest, hq0, hc, hq, _⟩ |
    ⟨t, rest, job, hq0, hjob, hc, hq, _⟩
  · intro cid j hj
    rw [hc] at hj
    rw [hq]
    exact h cid j hj
  · intro cid j hj
    rw [hc] at hj
    rw [hq]
    have hold := h cid j hj
    have hcount := hold.1
    rw [hq0, unitCount_cons] at hcount
    refine ⟨?_, hold.2⟩
    split at hcount <;> omega
  · intro cid2 j2 hj2
    rw [hc] at hj2
    rw [hq]
    by_cases e : cid2 = t.customerId
    · subst e
      rw [mapLookup_mapSet_self] at hj2
      injection hj2 with e2
      subst e2
      have hold := h t.customerId job hjob
      have hcount := hold.1
      rw [hq0, unitCount_cons, if_pos rfl] at hcount
      constructor
      · simp only [assignJob, List.length_append, List.length_cons, List.length_nil]
        omega
      · intro x hx
        simp only [assignJob] at hx ⊢
        by_cases xw : x = w
        · subst xw
          exact List.mem_append_right _ (by simp)
        · rw [mapLookup_mapSet_ne _ _ xw] at hx
          exact List.mem_append_left _ (hold.2 x hx)
    · rw [mapLookup_mapSet_ne _ _ e] at hj2
      have hold := h cid2 j2 hj2
      refine ⟨?_, hold.2⟩
      have hcount := hold.1
      rw [hq0, unitCount_cons, if_neg (fun e2 => e e2.symm)] at hcount
      omega

theorem queueInv_upload (now : Nat) (v : Bool) (w cid : String) (r u : Bytes)
    (outs : JsMap Bytes) (hr hu : Bool) (s : EngineState)
    (h : QueueInv s) : QueueInv (uploadresult now v w cid r u outs hr hu s).2 := by
  rcases uploadresult_cases now v w cid r u outs hr hu s
      (uploadresult now v w cid r u outs hr hu s).1
      (uploadresult now v w cid r u outs hr hu s).2 rfl with
    hsame | ⟨job, hjob, hmem, hdup, hnc, hq, hcm, hcust⟩
  · rw [hsame]
    exact h
  · intro cid2 j2 hj2
    rw [hq]
    rcases hcust with hcc | hcc <;>
      rw [hcc] at hj2 <;>
      [skip; skip] <;>
      by_cases e : cid2 = cid
    case pos =>
      subst e
      rw [mapLookup_mapSet_self] at hj2
      injection hj2 with e2
      subst e2
      have hold := h cid2 job hjob
      constructor
      · simpa [submitStoreJob] using hold.1
      · intro x hx
        simp only [submitStoreJob] at hx ⊢
        by_cases xw : x = w
        · subst xw
          rw [mapLookup_mapErase_self] at hx
          cases hx
        · rw [mapLookup_mapErase_ne _ xw] at hx
          exact hold.2 x hx
    case neg =>
      rw [mapLookup_mapSet_ne _ _ e] at hj2
      exact h cid2 j2 hj2
    case pos =>
      subst e
      rw [mapLookup_mapSet_self] at hj2
      injection hj2 with e2
      subst e2
      have hold := h cid2 job hjob
      constructor
      · simpa [submitStoreJob, notifyJob, completeJob] using hold.1
      · intro x hx
        simp only [submitStoreJob, notifyJob, completeJob] at hx ⊢
        by_cases xw : x = w
        · subst xw
          rw [mapLookup_mapErase_self] at hx
          cases hx
        · rw [mapLookup_mapErase_ne _ xw] at hx
          exact hold.2 x hx
    case neg =>
      rw [mapLookup_mapSet_ne _ _ e] at hj2
      exact h cid2 j2 hj2

theorem queueInv_heartbeat (now : Nat) (v : Bool) (w : String) (cid : Option String)
    (s : EngineState) (h : QueueInv s) : QueueInv (heartbeat now v w cid s).2 := by
  rcases heartbeat_cases now v w cid s with hsame |
    ⟨cid0, job, hcid, hjob, hmem, hc, hq, _⟩
  · rw [hsame]
    exact h
  · intro cid2 j2 hj2
    rw [hq]
    rw [hc] at hj2
    by_cases e : cid2 = cid0
    · subst e
      rw [mapLookup_mapSet_self] at hj2
      injection hj2 with e2
      subst e2
      have hold := h cid2 job hjob
      constructor
      · simpa [beatJob] using hold.1
      · intro x hx
        simp only [beatJob] at hx ⊢
        by_cases xw : x = w
        · subst xw
          exact hmem
        · rw [mapLookup_mapSet_ne _ _ xw] at hx
          exact hold.2 x hx
    · rw [mapLookup_mapSet_ne _ _ e] at hj2
      exact h cid2 j2 hj2

theorem queueInv_cancel (now : Nat) (cid : String) (s : EngineState)
    (h : QueueInv s) : QueueInv (cancel now cid s).2 := by
  rcases cancel_cases now cid s with hsame | ⟨hq, hcc | ⟨job, hjob, hcc⟩⟩
  · rw [hsame]
    exact h
  · intro cid2 j2 hj2
    rw [hq]
    rw [hcc] at hj2
    have hold := h cid2 j2 hj2
    refine ⟨?_, hold.2⟩
    by_cases e : cid2 = cid
    · subst e
      rw [unitCount_filter_ne]
      have := hold.1
      omega
    · rw [unitCount_filter_ne_other _ e]
      exact hold.1
  · intro cid2 j2 hj2
    rw [hq]
    rw [hcc] at hj2
    by_cases e : cid2 = cid
    · subst e
      rw [mapLookup_mapSet_self] at hj2
      injection hj2 with e2
      subst e2
      have hold := h cid2 job hjob
      constructor
      · rw [unitCount_filter_ne]
        simp only [cancelJobRec]
        have := hold.1
        omega
      · intro x hx
        simp [cancelJobRec, mapLookup] at hx
    · rw [mapLookup_mapSet_ne _ _ e] at hj2
      have hold := h cid2 j2 hj2
      refine ⟨?_, hold.2⟩
      rw [unitCount_filter_ne_other _ e]
      exact hold.1

theorem queueInv_getresults (now : Nat) (cid : String) (s : EngineState)
    (h : QueueInv s) : QueueInv (getresults now cid s).2 := by
  rcases getresults_cases now cid s with hsame | ⟨job, hjob, hq, _, hcc | hcc⟩
  · rw [hsame]
    exact h
  · intro cid2 j2 hj2
    rw [hq]
    rw [hcc] at hj2
    by_cases e : cid2 = cid
    · subst e
      rw [mapLookup_mapSet_self] at hj2
      injection hj2 with e2
      subst e2
      have hold := h cid2 job hjob
      exact ⟨by simpa [completeJob] using hold.1,
        fun x hx => hold.2 x (by simpa [completeJob] using hx)⟩
    · rw [mapLookup_mapSet_ne _ _ e] at hj2
      exact h cid2 j2 hj2
  · intro cid2 j2 hj2
    rw [hq]
    rw [hcc, mapSet_mapSet] at hj2
    by_cases e : cid2 = cid
    · subst e
      rw [mapLookup_mapSet_self] at hj2
      injection hj2 with e2
      subst e2
      have hold := h cid2 job hjob
      exact ⟨by simpa [completeJob, notifyJob] using hold.1,
        fun x hx => hold.2 x (by simpa [completeJob, notifyJob] using hx)⟩
    · rw [mapLookup_mapSet_ne _ _ e] at hj2
      exact h cid2 j2 hj2

theorem queueInv_getUpdate (now : Nat) (cid : String) (s : EngineState)
    (h : QueueInv s) : QueueInv (getUpdate now cid s).2 := by
  have hf := getUpdate_frame now cid s
  intro cid2 j2 hj2
  rw [hf.1] at hj2
  rw [hf.2.1]
  exact h cid2 j2 hj2

theorem queueInv_create (now : Nat) (cid0 tid cusname : String) (code : Bytes)
    (dataset requirement : Option Bytes) (respn : Nat) (s : EngineState)
    (h : QueueInv s)
    (hfresh : mapLookup s.customers cid0 = none)
    (hqf : ∀ t ∈ s.taskQueue, t.customerId ≠ cid0) :
    QueueInv (createJob now cid0 tid cusname code dataset requirement respn s) := by
  have hfld := createJob_fields now cid0 tid cusname code dataset requirement respn s
  intro cid2 j2 hj2
  rw [hfld.1] at hj2
  rw [hfld.2.1]
  by_cases e : cid2 = cid0
  · subst e
    rw [mapLookup_mapSet_self] at hj2
    injection hj2 with e2
    subst e2
    constructor
    · rw [unitCount_append, unitCount_eq_zero hqf, unitCount_replicate]
      simp [newJob]
    · intro x hx
      simp [newJob, mapLookup] at hx
  · rw [mapLookup_mapSet_ne _ _ e] at hj2
    have hold := h cid2 j2 hj2
    refine ⟨?_, hold.2⟩
    rw [unitCount_append, unitCount_replicate,
      if_neg (fun e2 : (⟨cid0, tid⟩ : WorkUnit).customerId = cid2 => e e2.symm)]
    simpa using hold.1

/-- Every reachable engine state satisfies the counting invariant. -/
theorem reachable_queueInv {s : EngineState} (h : Reachable s) : QueueInv s := by
  induction h with
  | base =>
      intro cid j hj
      simp [initialState, mapLookup] at hj
  | create now cid tid cusname code dataset requirement respn hrs hfresh hqf htf hcf ih =>
      exact queueInv_create now cid tid cusname code dataset requirement respn _
        ih hfresh hqf
  | step op hr ih =>
      cases op with
      | claim now v w => exact queueInv_gettask now v w _ ih
      | submit now v w cid r u outs hrr huu => exact queueInv_upload now v w cid r u outs hrr huu _ ih
      | beat now v w cid => exact queueInv_heartbeat now v w cid _ ih
      | cancelJob now cid => exact queueInv_cancel now cid _ ih
      | download now cid => exact queueInv_getresults now cid _ ih
      | drain now cid => exact queueInv_getUpdate now cid _ ih
      | tick now => exact queueInv_sweep_foldl now _ _ ih

/-! ## C3: the worker budget -/

/-- Claim C3 counterexample: at a state whose job already has
|assignedWorkers| = numWorkers = 1 and one stale queued unit, the claim does
not drop the unit and return no-work - there is no staleness guard - it
appends the claiming worker, taking assignedWorkers to length 2 over a
budget of 1.  (Such states are unreachable in the sequential model, which is
why the invariant of the amended claim still holds.) -/
theorem gettask_appends_without_staleness_guard :
    c3State.taskQueue.length = 1 ∧
    c3Job.workers.length = c3Job.numWorkers ∧
    (gettask 100 true "W2" c3State).1 ≠ .noWork ∧
    ((mapLookup (gettask 100 true "W2" c3State).2.customers "c").map
        (fun j => (j.workers, j.numWorkers))) = some (["W1", "W2"], 1) := by
  decide

/-- Claim C3 (amended): in every reachable state, |assignedWorkers| never
exceeds numWorkers - because assignedWorkers length plus the queued units of
the job never exceed numWorkers, a unit can only be claimed while at least
one slot is free.  The claim operation itself performs no staleness check:
at a hypothetical state with a full worker list and a queued unit it would
append the claiming worker (see the counterexample), but no such state is
reachable. -/
theorem reachable_assigned_le_numWorkers {s : EngineState} (h : Reachable s)
    (cid : String) (j : Job) (hj : mapLookup s.customers cid = some j) :
    j.workers.length ≤ j.numWorkers := by
  have hb := (reachable_queueInv h cid j hj).1
  omega

/-- Witness for the amended C3 theorem at a freshly created reachable job. -/
theorem reachable_assigned_le_numWorkers_witness :
    mapLookup c3wState.customers "cw" = some c3wJob ∧
    c3wJob.workers.length ≤ c3wJob.numWorkers :=
  ⟨by decide,
   reachable_assigned_le_numWorkers
     (Reachable.create 100 "cw" "tw" "wit" [4] none none 2 Reachable.base
       (by decide) (by simp [initialState]) (by simp [initialState])
       (by simp [initialState]))
     "cw" c3wJob (by decide)⟩

/-- Claim C2 (amended): in every reachable state, every workerId with a
heartbeats entry is in assignedWorkers; the second half of the claimed
equivalence (no results entry) fails, as the counterexample shows. -/
theorem reachable_heartbeats_subset_assigned {s : EngineState} (h : Reachable s)
    (cid : String) (j : Job) (x : String)
    (hj : mapLookup s.customers cid = some j)
    (hx : (mapLookup j.workerHeartbeats x).isSome = true) : x ∈ j.workers :=
  (reachable_queueInv h cid j hj).2 x hx

/-- Witness for the amended C2 theorem at a reachable claimed job. -/
theorem reachable_heartbeats_subset_assigned_witness :
    mapLookup c2wState.customers "ew" = some c2wJob ∧
    (mapLookup c2wJob.workerHeartbeats "W").isSome = true ∧
    "W" ∈ c2wJob.workers :=
  ⟨by decide, by decide,
   reachable_heartbeats_subset_assigned
     (Reachable.step (.claim 200 true "W")
       (Reachable.create 100 "ew" "tew" "xe" [1] none none 1 Reachable.base
         (by decide) (by simp [initialState]) (by simp [initialState])
         (by simp [initialState])))
     "ew" c2wJob "W" (by decide) (by decide)⟩

/-! ## C7: the fault detector releases stale workers -/

theorem staleCheck_releaseWorker_ne {now : Nat} {j : Job} {x w : String}
    (h : w ≠ x) : staleCheck now (releaseWorker j x) w = staleCheck now j w := by
  unfold staleCheck releaseWorker
  rw [mapLookup_mapErase_ne _ h]

theorem staleCheck_releaseWorker_self (now : Nat) (j : Job) (w : String) :
    staleCheck now (releaseWorker j w) w = false := by
  unfold staleCheck releaseWorker
  rw [mapLookup_mapErase_self]

/-- Closed form of the worker loop: the final job is the initial job with
the released ids erased, and the queue grows by one fresh unit per released
id, appended at the tail. -/
theorem sweepWorkersLoop_closed (now : Nat) (cid tid : String) (ws : List String) :
    ∀ (j : Job) (q : List WorkUnit) (m : JsMap (List Update)) (j' : Job)
      (q' : List WorkUnit) (m' : JsMap (List Update)),
      sweepWorkersLoop now cid tid (j, q, m) ws = (j', q', m') →
      j' = releaseAll j (releasedIds now j ws) ∧
      q' = q ++ List.replicate (releasedIds now j ws).length ⟨cid, tid⟩ := by
  induction ws with
  | nil =>
      intro j q m j' q' m' heq
      cases heq
      exact ⟨rfl, by simp [releasedIds, releaseAll]⟩
  | cons w rest ih =>
      intro j q m j' q' m' heq
      simp only [sweepWorkersLoop] at heq
      split at heq
      · rename_i hstale
        obtain ⟨h1, h2⟩ := ih _ _ _ _ _ _ heq
        refine ⟨?_, ?_⟩
        · rw [h1]
          simp [releasedIds, hstale, releaseAll]
        · rw [h2]
          simp [releasedIds, hstale, List.replicate_succ]
      · rename_i hstale
        obtain ⟨h1, h2⟩ := ih _ _ _ _ _ _ heq
        have hs : staleCheck now j w = false := by
          cases hsc : staleCheck now j w
          · rfl
          · exact absurd hsc hstale
        exact ⟨by rw [h1]; simp [releasedIds, hs],
               by rw [h2]; simp [releasedIds, hs]⟩

/-- A worker that appears in the snapshot and is stale at entry is among the
released ids. -/
theorem mem_releasedIds {now : Nat} {w : String} :
    ∀ {j : Job} {ws : List String}, w ∈ ws → staleCheck now j w = true →
      w ∈ releasedIds now j ws := by
  intro j ws
  induction ws generalizing j with
  | nil => intro h; cases h
  | cons a rest ih =>
      intro hmem hstale
      by_cases haw : a = w
      · subst haw
        simp [releasedIds, hstale]
      · rcases List.mem_cons.mp hmem with h1 | h1
        · exact absurd h1.symm haw
        · by_cases hsa : staleCheck now j a = true
          · have hpres : staleCheck now (releaseWorker j a) w = staleCheck now j w :=
              staleCheck_releaseWorker_ne (fun e => haw e.symm)
            simp only [releasedIds, hsa, if_true]
            exact List.mem_cons_of_mem a (ih h1 (hpres.trans hstale))
          · have hs : staleCheck now j a = false := by
              cases hsc : staleCheck now j a
              · rfl
              · exact absurd hsc hsa
            simp only [releasedIds, hs, Bool.false_eq_true, if_false]
            exact ih h1 hstale

/-- A worker that is not stale at entry is never released. -/
theorem not_mem_releasedIds {now : Nat} {w : String} :
    ∀ {j : Job} {ws : List String}, staleCheck now j w = false →
      w ∉ releasedIds now j ws := by
  intro j ws
  induction ws generalizing j with
  | nil => intro _ h; cases h
  | cons a rest ih =>
      intro hfalse hmem
      by_cases hsa : staleCheck now j a = true
      · simp only [releasedIds, hsa, if_true] at hmem
        rcases List.mem_cons.mp hmem with h1 | h1
        · subst h1
          rw [hfalse] at hsa
          cases hsa
        · by_cases haw : w = a
          · subst haw
            rw [hfalse] at hsa
            cases hsa
          · exact ih (by rw [staleCheck_releaseWorker_ne haw]; exact hfalse) h1
      · have hs : staleCheck now j a = false := by
          cases hsc : staleCheck now j a
          · rfl
          · exact absurd hsc hsa
        simp only [releasedIds, hs, Bool.false_eq_true, if_false] at hmem
        exact ih hfalse hmem

/-- Each workerId is released at most once per tick. -/
theorem releasedIds_nodup (now : Nat) :
    ∀ (ws : List String) (j : Job), (releasedIds now j ws).Nodup := by
  intro ws
  induction ws with
  | nil => intro j; simp [releasedIds]
  | cons a rest ih =>
      intro j
      by_cases hsa : staleCheck now j a = true
      · simp only [releasedIds, hsa, if_true, List.nodup_cons]
        exact ⟨not_mem_releasedIds (staleCheck_releaseWorker_self now j a),
          ih (releaseWorker j a)⟩
      · have hs : staleCheck now j a = false := by
          cases hsc : staleCheck now j a
          · rfl
          · exact absurd hsc hsa
        simp only [releasedIds, hs, Bool.false_eq_true, if_false]
        exact ih j

/-- releaseWorker erases the released worker everywhere. -/
theorem releaseWorker_erases (j : Job) (w : String) :
    w ∉ (releaseWorker j w).workers ∧
    mapLookup (releaseWorker j w).workerHeartbeats w = none ∧
    mapLookup (releaseWorker j w).results w = none ∧
    mapLookup (releaseWorker j w).usage w = none ∧
    mapLookup (releaseWorker j w).outputFiles w = none := by
  refine ⟨?_, ?_, ?_, ?_, ?_⟩
  · simp [releaseWorker, List.mem_filter]
  · simp [releaseWorker, mapLookup_mapErase_self]
  · simp [releaseWorker, mapLookup_mapErase_self]
  · simp [releaseWorker, mapLookup_mapErase_self]
  · simp [releaseWorker, mapLookup_mapErase_self]

/-- Absence of a worker from every component is preserved by further
releases. -/
theorem releaseWorker_preserves_absence (j : Job) (x w : String)
    (h : w ∉ j.workers ∧
      mapLookup j.workerHeartbeats w = none ∧
      mapLookup j.results w = none ∧
      mapLookup j.usage w = none ∧
      mapLookup j.outputFiles w = none) :
    w ∉ (releaseWorker j x).workers ∧
    mapLookup (releaseWorker j x).workerHeartbeats w = none ∧
    mapLookup (releaseWorker j x).results w = none ∧
    mapLookup (releaseWorker j x).usage w = none ∧
    mapLookup (releaseWorker j x).outputFiles w = none := by
  by_cases e : w = x
  · subst e
    exact releaseWorker_erases j w
  · refine ⟨?_, ?_, ?_, ?_, ?_⟩
    · intro hmem
      exact h.1 (List.mem_of_mem_filter hmem)
    · rw [releaseWorker, mapLookup_mapErase_ne _ e]
      exact h.2.1
    · rw [releaseWorker, mapLookup_mapErase_ne _ e]
      exact h.2.2.1
    · rw [releaseWorker, mapLookup_mapErase_ne _ e]
      exact h.2.2.2.1
    · rw [releaseWorker, mapLookup_mapErase_ne _ e]
      exact h.2.2.2.2

theorem releaseAll_absence (w : String) :
    ∀ (ids : List String) (j : Job),
      (w ∉ j.workers ∧
        mapLookup j.workerHeartbeats w = none ∧
        mapLookup j.results w = none ∧
        mapLookup j.usage w = none ∧
        mapLookup j.outputFiles w = none) →
      (w ∉ (releaseAll j ids).workers ∧
        mapLookup (releaseAll j ids).workerHeartbeats w = none ∧
        mapLookup (releaseAll j ids).results w = none ∧
        mapLookup (releaseAll j ids).usage w = none ∧
        mapLookup (releaseAll j ids).outputFiles w = none) := by
  intro ids
  induction ids with
  | nil => intro j h; exact h
  | cons a rest ih =>
      intro j h
      exact ih (releaseWorker j a) (releaseWorker_preserves_absence j a w h)

theorem releaseAll_erases {w : String} :
    ∀ {ids : List String} (j : Job), w ∈ ids →
      (w ∉ (releaseAll j ids).workers ∧
        mapLookup (releaseAll j ids).workerHeartbeats w = none ∧
        mapLookup (releaseAll j ids).results w = none ∧
        mapLookup (releaseAll j ids).usage w = none ∧
        mapLookup (releaseAll j ids).outputFiles w = none) := by
  intro ids
  induction ids with
  | nil => intro j h; cases h
  | cons a rest ih =>
      intro j hmem
      by_cases e : a = w
      · subst e
        exact releaseAll_absence a rest (releaseWorker j a) (releaseWorker_erases j a)
      · rcases List.mem_cons.mp hmem with h1 | h1
        · exact absurd h1.symm e
        · exact ih (releaseWorker j a) h1

theorem releaseAll_pendingWorkers : ∀ (ids : List String) (j : Job),
    (releaseAll j ids).pendingWorkers = j.pendingWorkers := by
  intro ids
  induction ids with
  | nil => intro j; rfl
  | cons a rest ih =>
      intro j
      exact ih (releaseWorker j a)

/-- Claim C7: on a monitor tick, for the monitored job of a progress-queue
entry - the job exists, is not completed and not cancelled - every assigned
workerId whose heartbeat entry is stale (older than HEARTBEAT_TIMEOUT) is
removed from assignedWorkers, workerHeartbeats, results, usage and
outputFiles; pendingWorkers is left unchanged; and the tick appends the
fresh units {customerId, taskId} at the tail of the TaskQueue, exactly one
per released workerId (the released ids contain the stale worker and have no
duplicates). -/
theorem sweep_releases_stale_worker (now : Nat) (s : EngineState) (task : WorkUnit)
    (j : Job) (w : String) (lb : Nat)
    (htpq : s.taskProgressQueue = [task])
    (hj : mapLookup s.customers task.customerId = some j)
    (hnc : j.isCompleted = false) (hcc : task.customerId ∉ s.cancelMap)
    (hw : w ∈ j.workers)
    (hhb : mapLookup j.workerHeartbeats w = some lb) (hlb : lb ≠ 0)
    (hstale : now - lb > HEARTBEAT_TIMEOUT) :
    (∃ j', mapLookup (sweep now s).customers task.customerId = some j' ∧
      w ∉ j'.workers ∧
      mapLookup j'.workerHeartbeats w = none ∧
      mapLookup j'.results w = none ∧
      mapLookup j'.usage w = none ∧
      mapLookup j'.outputFiles w = none ∧
      j'.pendingWorkers = j.pendingWorkers) ∧
    ((sweep now s).taskQueue =
      s.taskQueue ++ List.replicate (releasedIds now j j.workers).length
        ⟨task.customerId, task.taskId⟩ ∧
     w ∈ releasedIds now j j.workers ∧
     (releasedIds now j j.workers).Nodup) := by
  have hsw : staleCheck now j w = true := by
    simp [staleCheck, hhb, hlb, hstale]
  have hmemrel : w ∈ releasedIds now j j.workers := mem_releasedIds hw hsw
  have hsweep : sweep now s = sweepTask now s task := by
    unfold sweep
    rw [htpq]
    rfl
  rw [hsweep]
  unfold sweepTask
  simp only [hj]
  have hcond : (j.isCompleted || decide (task.customerId ∈ s.cancelMap)) = false := by
    simp [hnc, hcc]
  rw [hcond]
  simp only [Bool.false_eq_true, if_false]
  rcases hloop : sweepWorkersLoop now task.customerId task.taskId
    (j, s.taskQueue, s.taskUpdates) j.workers with ⟨j', q', m'⟩
  obtain ⟨hj', hq'⟩ := sweepWorkersLoop_closed now task.customerId task.taskId
    j.workers j s.taskQueue s.taskUpdates j' q' m' hloop
  have habs := releaseAll_erases j hmemrel
  constructor
  · refine ⟨j', ?_, ?_, ?_, ?_, ?_, ?_, ?_⟩
    · simp only
      rw [mapLookup_mapSet_self]
    · rw [hj']
      exact habs.1
    · rw [hj']
      exact habs.2.1
    · rw [hj']
      exact habs.2.2.1
    · rw [hj']
      exact habs.2.2.2.1
    · rw [hj']
      exact habs.2.2.2.2
    · rw [hj']
      exact releaseAll_pendingWorkers _ j
  · exact ⟨hq', hmemrel, releasedIds_nodup now j.workers j⟩

/-- Witness for C7: job f was claimed by W at 200 ms and the tick runs at
40000 ms, 39.8 s after the only heartbeat. -/
theorem sweep_releases_stale_worker_witness :
    (c7State.taskProgressQueue = [⟨"f", "t4"⟩] ∧
      mapLookup c7State.customers "f" = some c7Job ∧
      c7Job.isCompleted = false ∧ ("f" : String) ∉ c7State.cancelMap ∧
      "W" ∈ c7Job.workers ∧
      mapLookup c7Job.workerHeartbeats "W" = some 200 ∧ (200 : Nat) ≠ 0 ∧
      40000 - 200 > HEARTBEAT_TIMEOUT) ∧
    ((∃ j', mapLookup (sweep 40000 c7State).customers "f" = some j' ∧
        "W" ∉ j'.workers ∧
        mapLookup j'.workerHeartbeats "W" = none ∧
        mapLookup j'.results "W" = none ∧
        mapLookup j'.usage "W" = none ∧
        mapLookup j'.outputFiles "W" = none ∧
        j'.pendingWorkers = c7Job.pendingWorkers) ∧
      ((sweep 40000 c7State).taskQueue =
        c7State.taskQueue ++ List.replicate (releasedIds 40000 c7Job c7Job.workers).length
          ⟨"f", "t4"⟩ ∧
       "W" ∈ releasedIds 40000 c7Job c7Job.workers ∧
       (releasedIds 40000 c7Job c7Job.workers).Nodup)) :=
  ⟨⟨by decide, by decide, by decide, by decide, by decide, by decide, by decide,
    by decide⟩,
   sweep_releases_stale_worker 40000 c7State ⟨"f", "t4"⟩ c7Job "W" 200
     (by decide) (by decide) (by decide) (by decide) (by decide) (by decide)
     (by decide) (by decide)⟩

end LeafCloud
